import Mathlib

/-!
Verification of the GTS toolchain (gts-rust) against its natural-language
specification.

The development shallowly embeds the relevant Rust functions over `List Char`
(one entry per character; the sources under scrutiny only ever branch on ASCII
characters, so byte positions and char positions coincide on every input that
matters, and the embedding notes the few places where a Unicode-aware Rust
primitive is modelled by its ASCII restriction).

Components embedded here, from the repository sources:
 - `gts-id/src/lib.rs`: `is_valid_segment_token`, `parse_u32_exact`,
   `validate_segment`, `validate_gts_id` (the ID grammar engine);
 - `gts-cli/src/gen_common.rs`: `has_ignore_directive`, `walk_rust_files`,
   `safe_canonicalize_nonexistent`;
 - `gts-cli/src/gen_instances/parser.rs`: `preflight_scan`,
   `build_line_offsets`, `byte_offset_to_line`, `find_needle_line`,
   `validate_json_body`, `extract_instances_from_source`;
 - `gts-cli/src/gen_instances/string_lit.rs`: `decode_string_literal`;
 - `gts-cli/src/gen_instances/attrs.rs`: `extract_str_attr`,
   `blank_string_literals`, `check_duplicate_attr_keys`, `parse_instance_attrs`;
 - `gts-cli/src/gen_instances/writer.rs`: `generate_single_instance`;
 - `gts-validator/src/format/yaml.rs`: `split_yaml_documents`,
   `scan_yaml_content`.

External engines that the code calls (the `regex` crate, `serde_json`,
`serde_saphyr`, the operating system's filesystem) are not part of this
repository; they enter the embedding as explicit parameters (lists of regex
captures, an abstract JSON/YAML parse function, an abstract filesystem
oracle), and each such parameter is documented where it is introduced.
-/

/-! ## Prelude: character-list utilities shared by the embeddings -/

/-- Decimal digit character for a value below 10. -/
def digitChar (n : Nat) : Char := Char.ofNat (48 + n)

/-- Fuel-driven decimal rendering (the fuel makes the definition structurally
recursive so that the kernel can evaluate it). -/
def natCharsAux : Nat → Nat → List Char
  | 0, _ => []
  | fuel + 1, n =>
    if n < 10 then [digitChar n]
    else natCharsAux fuel (n / 10) ++ [digitChar (n % 10)]

/-- Embedding of Rust `u32::to_string` (and of the `{n}` interpolation of a
number into a message): canonical decimal rendering, no sign, no leading
zeros. -/
def natChars (n : Nat) : List Char := natCharsAux (n + 1) n

/-- Rust `char::is_ascii_lowercase`. -/
def isLowerAlpha (c : Char) : Bool := 'a' ≤ c && c ≤ 'z'

/-- Rust `char::is_ascii_digit`. -/
def isDigitCh (c : Char) : Bool := '0' ≤ c && c ≤ '9'

/-- Rust `str::split(sep)` semantics on a character list: empty parts are
kept, the empty input yields one empty part. -/
def splitOnCh (sep : Char) : List Char → List (List Char)
  | [] => [[]]
  | c :: rest =>
    let r := splitOnCh sep rest
    if c = sep then [] :: r
    else
      match r with
      | [] => [[c]]
      | h :: t => (c :: h) :: t

/-- Join with a separator character: the left inverse of `splitOnCh`. -/
def joinWithCh (sep : Char) : List (List Char) → List Char
  | [] => []
  | [p] => p
  | p :: q :: rest => p ++ sep :: joinWithCh sep (q :: rest)

/-- Bool test that a character list ends with the given character
(Rust `str::ends_with(char)`). -/
def endsWithCh (l : List Char) (c : Char) : Bool := l.getLast? == some c

/-- Bool test that a character list starts with the given character
(Rust `str::starts_with(char)`). -/
def startsWithCh (l : List Char) (c : Char) : Bool := l.head? == some c

/-- Rust whitespace in `str::trim`, restricted to the ASCII whitespace that
the inputs of this development can contain. -/
def isWsCh (c : Char) : Bool := c = ' ' || c = '\t' || c = '\n' || c = '\r'

/-- Rust `str::trim` (ASCII restriction of Unicode whitespace). -/
def trimChars (l : List Char) : List Char :=
  (l.dropWhile isWsCh).reverse.dropWhile isWsCh |>.reverse

/-- Rust `char::to_ascii_lowercase`-style fold used to model
`str::to_lowercase`. Non-ASCII characters are kept as they are; a non-ASCII
character that Rust would lowercase differently is rejected later by every
token validator (tokens admit only `[a-z0-9_]`, versions only digits), so the
accepted language is unchanged. -/
def toLowerCh (c : Char) : Char :=
  if 'A' ≤ c && c ≤ 'Z' then Char.ofNat (c.toNat + 32) else c

def lowerChars (l : List Char) : List Char := l.map toLowerCh

namespace GtsId

/-! ## ID grammar engine: embedding of `gts-id/src/lib.rs` -/

/-- The required prefix for all GTS identifiers (`GTS_PREFIX`). -/
def GTS_PREFIX : List Char := "gts.".toList

/-- Maximum allowed length for a GTS identifier string (`GTS_MAX_LENGTH`). -/
def GTS_MAX_LENGTH : Nat := 1024

/-- Result of successfully parsing a single GTS segment (`ParsedSegment`).
The Rust field `namespace` is spelled `nspace` because `namespace` is a Lean
keyword. -/
structure ParsedSegment where
  raw : List Char
  offset : Nat
  vendor : List Char
  package : List Char
  nspace : List Char
  type_name : List Char
  ver_major : Nat
  ver_minor : Option Nat
  is_type : Bool
  is_wildcard : Bool
deriving DecidableEq, Repr

/-- Errors from GTS ID validation (`GtsIdError`). The cause strings are built
exactly as the Rust `format!` calls build them. -/
inductive GtsIdError where
  | segment (num : Nat) (offset : Nat) (seg : List Char) (cause : List Char)
  | id (idStr : List Char) (cause : List Char)
deriving DecidableEq, Repr

/-- Expected format string for segment error messages (`expected_format`). -/
def expected_format (segment_num : Nat) : List Char :=
  if segment_num = 1 then "gts.vendor.package.namespace.type.vMAJOR[.MINOR]".toList
  else "vendor.package.namespace.type.vMAJOR[.MINOR]".toList

/-- Validates a GTS segment token without regex (`is_valid_segment_token`):
starts with `[a-z_]`, continues with `[a-z0-9_]*`. -/
def is_valid_segment_token (token : List Char) : Bool :=
  match token with
  | [] => false
  | c :: rest =>
    (isLowerAlpha c || c = '_') &&
    rest.all (fun d => isLowerAlpha d || isDigitCh d || d = '_')

/-- Numeric value of a digit list (most significant first). -/
def digitsVal (l : List Char) : Nat :=
  l.foldl (fun acc c => acc * 10 + (c.toNat - 48)) 0

/-- Embedding of Rust `str::parse::<u32>()`: an optional leading `+`, then one
or more ASCII digits, rejecting values that overflow `u32`. -/
def parseU32Rust (value : List Char) : Option Nat :=
  let digits := match value with
    | '+' :: rest => rest
    | l => l
  if digits.isEmpty then none
  else if digits.all isDigitCh then
    let v := digitsVal digits
    if v < 4294967296 then some v else none
  else none

/-- Parse a `u32` and reject leading zeros except the literal zero
(`parse_u32_exact`): the parsed value is kept only when its canonical decimal
rendering equals the source characters. -/
def parse_u32_exact (value : List Char) : Option Nat :=
  match parseU32Rust value with
  | none => none
  | some parsed => if natChars parsed = value then some parsed else none

/-- The wildcard token `*`. -/
def star : List Char := ['*']

def tooManyTildesMsg : List Char := "Too many '~' characters".toList

def tildeEndMsg : List Char := "'~' must be at the end".toList

def wildcardFinalMsg : List Char :=
  "Wildcard '*' is only allowed as the final token".toList

def majorStartMsg : List Char := "Major version must start with 'v'".toList

def tooManyTokensMsg (n : Nat) (fmt : List Char) : List Char :=
  "Too many tokens (got ".toList ++ natChars n ++ ", max 6). Expected format: ".toList ++ fmt

def tooFewTokensMsg (n : Nat) (fmt : List Char) : List Char :=
  "Too few tokens (got ".toList ++ natChars n ++ ", min 5). Expected format: ".toList ++ fmt

def tooManyNamesMsg (fmt : List Char) : List Char :=
  "Too many name tokens before version (got 5, expected 4). Expected format: ".toList ++ fmt

def roleName (i : Nat) : List Char :=
  if i = 0 then "vendor".toList
  else if i = 1 then "package".toList
  else if i = 2 then "namespace".toList
  else if i = 3 then "type".toList
  else "token".toList

def invalidTokenMsg (i : Nat) (token : List Char) : List Char :=
  "Invalid ".toList ++ roleName i ++ " token '".toList ++ token ++
  "'. Must start with [a-z_] and contain only [a-z0-9_]".toList

def majorIntMsg (s : List Char) : List Char :=
  "Major version must be an integer, got '".toList ++ s ++ "'".toList

def minorIntMsg (s : List Char) : List Char :=
  "Minor version must be an integer, got '".toList ++ s ++ "'".toList

/-- The `for (i, token) in tokens.iter().take(4).enumerate()` loop of
`validate_segment`: wildcard tokens are legal only in final position, other
tokens must pass `is_valid_segment_token`. `total` is `tokens.len()`, `i` the
running index, and the `break` of the source is the `.ok` in the wildcard
branch. -/
def checkNameTokens (aw : Bool) (total : Nat) :
    Nat → List (List Char) → Except (List Char) Unit
  | _, [] => .ok ()
  | i, token :: rest =>
    if aw && token == star then
      if i = total - 1 then .ok ()
      else .error wildcardFinalMsg
    else if ¬ is_valid_segment_token token then .error (invalidTokenMsg i token)
    else checkNameTokens aw total (i + 1) rest

/-- The progressive result-building tail of `validate_segment` (everything
after the first-four-token validation loop): fills vendor, package, namespace
and type, short-circuiting on a wildcard token, then parses the major and the
optional minor version. -/
def buildSegment (rawSeg : List Char) (is_type : Bool) (aw : Bool)
    (tokens : List (List Char)) : Except (List Char) ParsedSegment :=
  match tokens with
  | [] => .ok ⟨rawSeg, 0, [], [], [], [], 0, none, is_type, false⟩
  | t0 :: rest0 =>
    if aw && t0 == star then .ok ⟨rawSeg, 0, [], [], [], [], 0, none, is_type, true⟩
    else
      match rest0 with
      | [] => .ok ⟨rawSeg, 0, t0, [], [], [], 0, none, is_type, false⟩
      | t1 :: rest1 =>
        if aw && t1 == star then .ok ⟨rawSeg, 0, t0, [], [], [], 0, none, is_type, true⟩
        else
          match rest1 with
          | [] => .ok ⟨rawSeg, 0, t0, t1, [], [], 0, none, is_type, false⟩
          | t2 :: rest2 =>
            if aw && t2 == star then
              .ok ⟨rawSeg, 0, t0, t1, [], [], 0, none, is_type, true⟩
            else
              match rest2 with
              | [] => .ok ⟨rawSeg, 0, t0, t1, t2, [], 0, none, is_type, false⟩
              | t3 :: rest3 =>
                if aw && t3 == star then
                  .ok ⟨rawSeg, 0, t0, t1, t2, [], 0, none, is_type, true⟩
                else
                  match rest3 with
                  | [] => .ok ⟨rawSeg, 0, t0, t1, t2, t3, 0, none, is_type, false⟩
                  | t4 :: rest4 =>
                    if aw && t4 == star then
                      if 4 ≠ tokens.length - 1 then .error wildcardFinalMsg
                      else .ok ⟨rawSeg, 0, t0, t1, t2, t3, 0, none, is_type, true⟩
                    else if ¬ startsWithCh t4 'v' then .error majorStartMsg
                    else
                      match parse_u32_exact (t4.drop 1) with
                      | none => .error (majorIntMsg (t4.drop 1))
                      | some m =>
                        match rest4 with
                        | [] => .ok ⟨rawSeg, 0, t0, t1, t2, t3, m, none, is_type, false⟩
                        | t5 :: _ =>
                          if aw && t5 == star then
                            .ok ⟨rawSeg, 0, t0, t1, t2, t3, m, none, is_type, true⟩
                          else
                            match parse_u32_exact t5 with
                            | none => .error (minorIntMsg t5)
                            | some mi =>
                              .ok ⟨rawSeg, 0, t0, t1, t2, t3, m, some mi, is_type, false⟩

/-- Everything of `validate_segment` after the tilde handling: `seg` is the
segment with its trailing `~` already stripped, `rawSeg` the original raw
segment kept for the `raw` field. -/
def validateSegCore (segment_num : Nat) (rawSeg seg : List Char)
    (is_type : Bool) (aw : Bool) : Except (List Char) ParsedSegment :=
  let tokens := splitOnCh '.' seg
  let fmt := expected_format segment_num
  if tokens.length > 6 then .error (tooManyTokensMsg tokens.length fmt)
  else
    let ewc := aw && endsWithCh seg '*'
    if ¬ ewc ∧ tokens.length < 5 then .error (tooFewTokensMsg tokens.length fmt)
    else if ¬ ewc ∧ tokens.length = 6 ∧
        ¬ (aw && tokens.contains star) = true ∧
        ¬ startsWithCh (tokens.getD 4 []) 'v' = true ∧
        startsWithCh (tokens.getD 5 []) 'v' = true ∧
        is_valid_segment_token (tokens.getD 4 []) = true then
      .error (tooManyNamesMsg fmt)
    else
      match checkNameTokens aw tokens.length 0 (tokens.take 4) with
      | .error e => .error e
      | .ok () => buildSegment rawSeg is_type aw tokens

/-- Validate and parse a single GTS segment (`validate_segment`). Returns the
human-readable cause on failure, exactly as the Rust function builds it. -/
def validate_segment (segment_num : Nat) (segment : List Char)
    (allow_wildcards : Bool) : Except (List Char) ParsedSegment :=
  if segment.contains '~' then
    if segment.count '~' > 1 then .error tooManyTildesMsg
    else if endsWithCh segment '~' then
      validateSegCore segment_num segment segment.dropLast true allow_wildcards
    else .error tildeEndMsg
  else validateSegCore segment_num segment segment false allow_wildcards

def emptySegMsg (n off : Nat) : List Char :=
  "segment #".toList ++ natChars n ++ " @ offset ".toList ++ natChars off ++
  " is empty".toList

def tooLongMsg (len : Nat) : List Char :=
  "too long (".toList ++ natChars len ++ " chars, max 1024)".toList

/-- The `segments_raw` assembly loop of `validate_gts_id`: every part except
possibly the last regains its `~`; when the remainder ended in `~` the final
empty part is dropped (the `break` of the source). -/
def buildSegmentsRaw : List (List Char) → List (List Char)
  | [] => []
  | [p] => [p]
  | p :: q :: rest =>
    if rest = [] ∧ q = [] then [p ++ ['~']]
    else (p ++ ['~']) :: buildSegmentsRaw (q :: rest)

/-- The per-segment validation loop of `validate_gts_id`: `i` is the 0-based
segment index, `offset` the running byte offset of the segment within the full
ID. -/
def validateLoop (id : List Char) (aw : Bool) :
    Nat → Nat → List (List Char) → Except GtsIdError (List ParsedSegment)
  | _, _, [] => .ok []
  | i, offset, seg :: rest =>
    if seg.isEmpty || seg == ['~'] then
      .error (.id id (emptySegMsg (i + 1) offset))
    else
      match validate_segment (i + 1) seg aw with
      | .error cause => .error (.segment (i + 1) offset seg cause)
      | .ok parsed =>
        match validateLoop id aw (i + 1) (offset + seg.length) rest with
        | .error e => .error e
        | .ok others => .ok ({ parsed with offset := offset } :: others)

/-- Validate a full GTS identifier string (`validate_gts_id`): trim, check the
`gts.` prefix, lowercase, hyphens and length, split the remainder on `~`,
reassemble the segment strings and validate each one. -/
def validate_gts_id (id : List Char) (allow_wildcards : Bool) :
    Except GtsIdError (List ParsedSegment) :=
  let raw := trimChars id
  if ¬ GTS_PREFIX.isPrefixOf raw then
    .error (.id id "must start with 'gts.'".toList)
  else if raw ≠ lowerChars raw then
    .error (.id id "must be lowercase".toList)
  else if raw.contains '-' then
    .error (.id id "must not contain '-'".toList)
  else if raw.length > GTS_MAX_LENGTH then
    .error (.id id (tooLongMsg raw.length))
  else
    let remainder := raw.drop GTS_PREFIX.length
    let tilde_parts := splitOnCh '~' remainder
    let segments_raw := buildSegmentsRaw tilde_parts
    if segments_raw.isEmpty then
      .error (.id id "no segments found".toList)
    else
      validateLoop id allow_wildcards 0 GTS_PREFIX.length segments_raw

end GtsId

instance {ε α : Type} [DecidableEq ε] [DecidableEq α] : DecidableEq (Except ε α) :=
  fun a b =>
    match a, b with
    | .ok x, .ok y =>
      if h : x = y then .isTrue (by rw [h]) else .isFalse (by simp [h])
    | .error x, .error y =>
      if h : x = y then .isTrue (by rw [h]) else .isFalse (by simp [h])
    | .ok _, .error _ => .isFalse (by simp)
    | .error _, .ok _ => .isFalse (by simp)

namespace GtsId

/-! ## Lemmas about the ID grammar embedding -/

/-- The tilde-handling step (step 1) of `validate_segment`, as a derived
definition used to state claims about the later steps: `none` when the step
fails, otherwise the stripped segment together with the `is_type` flag. -/
def stripTilde (segment : List Char) : Option (List Char × Bool) :=
  if segment.contains '~' then
    if segment.count '~' > 1 then none
    else if endsWithCh segment '~' then some (segment.dropLast, true)
    else none
  else some (segment, false)

/-- Rust indexing `v[i]` returns `none` here where Rust would panic. -/
def idxChk (l : List (List Char)) (i : Nat) : Option (List Char) := l[i]?

/-- Rust slicing `&s[i..]` returns `none` here where Rust would panic
(index past the end; in this character-level model the char-boundary
condition of Rust is always met because a boundary exists before and after
every character, and the two slices the source takes cut right after the
ASCII prefixes `v` and `gts.`). -/
def sliceFromChk (l : List Char) (i : Nat) : Option (List Char) :=
  if i ≤ l.length then some (l.drop i) else none

/-- Checked mirror of the extra-name guard of `validate_segment` (the branch
that indexes `tokens[4]` and `tokens[5]`), with the accesses performed in the
source's short-circuit order: `none` models a panic, `some b` the value of the
guard condition. -/
def extraNameGuardChk (aw : Bool) (seg : List Char)
    (tokens : List (List Char)) : Option Bool :=
  if ¬ (aw && endsWithCh seg '*') = true ∧ tokens.length = 6 then
    if aw && tokens.contains star then some false
    else
      match idxChk tokens 4 with
      | none => none
      | some t4 =>
        if startsWithCh t4 'v' then some false
        else
          match idxChk tokens 5 with
          | none => none
          | some t5 =>
            if ¬ startsWithCh t5 'v' = true then some false
            else
              match idxChk tokens 4 with
              | none => none
              | some t4b => some (is_valid_segment_token t4b)
  else some false

/-- Checked mirror of the `tokens.len() > 5` block (minor version) of the
result-building tail of `validate_segment`. -/
def bchkAt5 (r : List Char) (it aw : Bool) (tokens : List (List Char))
    (t0 t1 t2 t3 : List Char) (m : Nat) :
    Option (Except (List Char) ParsedSegment) :=
  if ¬ tokens.length > 5 then some (.ok ⟨r, 0, t0, t1, t2, t3, m, none, it, false⟩)
  else
    match idxChk tokens 5 with
    | none => none
    | some t5 =>
      if aw && t5 == star then some (.ok ⟨r, 0, t0, t1, t2, t3, m, none, it, true⟩)
      else
        match parse_u32_exact t5 with
        | none => some (.error (minorIntMsg t5))
        | some mi => some (.ok ⟨r, 0, t0, t1, t2, t3, m, some mi, it, false⟩)

/-- Checked mirror of the `tokens.len() > 4` block (major version, including
the `&tokens[4][1..]` slice) of the result-building tail of
`validate_segment`. -/
def bchkAt4 (r : List Char) (it aw : Bool) (tokens : List (List Char))
    (t0 t1 t2 t3 : List Char) : Option (Except (List Char) ParsedSegment) :=
  if ¬ tokens.length > 4 then some (.ok ⟨r, 0, t0, t1, t2, t3, 0, none, it, false⟩)
  else
    match idxChk tokens 4 with
    | none => none
    | some t4 =>
      if aw && t4 == star then
        if 4 ≠ tokens.length - 1 then some (.error wildcardFinalMsg)
        else some (.ok ⟨r, 0, t0, t1, t2, t3, 0, none, it, true⟩)
      else if ¬ startsWithCh t4 'v' then some (.error majorStartMsg)
      else
        match sliceFromChk t4 1 with
        | none => none
        | some major_str =>
          match parse_u32_exact major_str with
          | none => some (.error (majorIntMsg major_str))
          | some m => bchkAt5 r it aw tokens t0 t1 t2 t3 m

/-- Checked mirror of the `tokens.len() > 3` block (type name token). -/
def bchkAt3 (r : List Char) (it aw : Bool) (tokens : List (List Char))
    (t0 t1 t2 : List Char) : Option (Except (List Char) ParsedSegment) :=
  if ¬ tokens.length > 3 then some (.ok ⟨r, 0, t0, t1, t2, [], 0, none, it, false⟩)
  else
    match idxChk tokens 3 with
    | none => none
    | some t3 =>
      if aw && t3 == star then some (.ok ⟨r, 0, t0, t1, t2, [], 0, none, it, true⟩)
      else bchkAt4 r it aw tokens t0 t1 t2 t3

/-- Checked mirror of the `tokens.len() > 2` block (namespace token). -/
def bchkAt2 (r : List Char) (it aw : Bool) (tokens : List (List Char))
    (t0 t1 : List Char) : Option (Except (List Char) ParsedSegment) :=
  if ¬ tokens.length > 2 then some (.ok ⟨r, 0, t0, t1, [], [], 0, none, it, false⟩)
  else
    match idxChk tokens 2 with
    | none => none
    | some t2 =>
      if aw && t2 == star then some (.ok ⟨r, 0, t0, t1, [], [], 0, none, it, true⟩)
      else bchkAt3 r it aw tokens t0 t1 t2

/-- Checked mirror of the `tokens.len() > 1` block (package token). -/
def bchkAt1 (r : List Char) (it aw : Bool) (tokens : List (List Char))
    (t0 : List Char) : Option (Except (List Char) ParsedSegment) :=
  if ¬ tokens.length > 1 then some (.ok ⟨r, 0, t0, [], [], [], 0, none, it, false⟩)
  else
    match idxChk tokens 1 with
    | none => none
    | some t1 =>
      if aw && t1 == star then some (.ok ⟨r, 0, t0, [], [], [], 0, none, it, true⟩)
      else bchkAt2 r it aw tokens t0 t1

/-- Checked mirror of the result-building tail of `validate_segment`: every
`tokens[i]` access and the `&tokens[4][1..]` slice go through `idxChk` /
`sliceFromChk`, in source order (one `bchkAtN` layer per `tokens.len() > N`
block of the source), so a `none` result models a Rust panic. -/
def buildSegmentChk (r : List Char) (it aw : Bool) (tokens : List (List Char)) :
    Option (Except (List Char) ParsedSegment) :=
  if tokens.isEmpty then some (.ok ⟨r, 0, [], [], [], [], 0, none, it, false⟩)
  else
    match idxChk tokens 0 with
    | none => none
    | some t0 =>
      if aw && t0 == star then some (.ok ⟨r, 0, [], [], [], [], 0, none, it, true⟩)
      else bchkAt1 r it aw tokens t0

/-- Checked mirror of the body of `validate_segment` after tilde handling. -/
def validateSegCoreChk (segment_num : Nat) (rawSeg seg : List Char)
    (is_type aw : Bool) : Option (Except (List Char) ParsedSegment) :=
  let tokens := splitOnCh '.' seg
  let fmt := expected_format segment_num
  if tokens.length > 6 then some (.error (tooManyTokensMsg tokens.length fmt))
  else
    let ewc := aw && endsWithCh seg '*'
    if ¬ ewc = true ∧ tokens.length < 5 then
      some (.error (tooFewTokensMsg tokens.length fmt))
    else
      match extraNameGuardChk aw seg tokens with
      | none => none
      | some true => some (.error (tooManyNamesMsg fmt))
      | some false =>
        match checkNameTokens aw tokens.length 0 (tokens.take 4) with
        | .error e => some (.error e)
        | .ok () => buildSegmentChk rawSeg is_type aw tokens

/-- Checked mirror of `validate_segment`: `none` models a Rust panic. -/
def validate_segmentChk (segment_num : Nat) (segment : List Char)
    (allow_wildcards : Bool) : Option (Except (List Char) ParsedSegment) :=
  if segment.contains '~' then
    if segment.count '~' > 1 then some (.error tooManyTildesMsg)
    else if endsWithCh segment '~' then
      validateSegCoreChk segment_num segment segment.dropLast true allow_wildcards
    else some (.error tildeEndMsg)
  else validateSegCoreChk segment_num segment segment false allow_wildcards

/-- Checked mirror of the per-segment loop of `validate_gts_id`. -/
def validateLoopChk (id : List Char) (aw : Bool) :
    Nat → Nat → List (List Char) → Option (Except GtsIdError (List ParsedSegment))
  | _, _, [] => some (.ok [])
  | i, offset, seg :: rest =>
    if seg.isEmpty || seg == ['~'] then
      some (.error (.id id (emptySegMsg (i + 1) offset)))
    else
      match validate_segmentChk (i + 1) seg aw with
      | none => none
      | some (.error cause) => some (.error (.segment (i + 1) offset seg cause))
      | some (.ok parsed) =>
        match validateLoopChk id aw (i + 1) (offset + seg.length) rest with
        | none => none
        | some (.error e) => some (.error e)
        | some (.ok others) => some (.ok ({ parsed with offset := offset } :: others))

/-- Checked mirror of `validate_gts_id`: the slice `&raw[GTS_PREFIX.len()..]`
goes through `sliceFromChk`, and the per-segment validation through
`validate_segmentChk`; `none` models a Rust panic. -/
def validate_gts_idChk (id : List Char) (allow_wildcards : Bool) :
    Option (Except GtsIdError (List ParsedSegment)) :=
  let raw := trimChars id
  if ¬ GTS_PREFIX.isPrefixOf raw then
    some (.error (.id id "must start with 'gts.'".toList))
  else if raw ≠ lowerChars raw then
    some (.error (.id id "must be lowercase".toList))
  else if raw.contains '-' then
    some (.error (.id id "must not contain '-'".toList))
  else if raw.length > GTS_MAX_LENGTH then
    some (.error (.id id (tooLongMsg raw.length)))
  else
    match sliceFromChk raw GTS_PREFIX.length with
    | none => none
    | some remainder =>
      let tilde_parts := splitOnCh '~' remainder
      let segments_raw := buildSegmentsRaw tilde_parts
      if segments_raw.isEmpty then
        some (.error (.id id "no segments found".toList))
      else
        validateLoopChk id allow_wildcards 0 GTS_PREFIX.length segments_raw

end GtsId

namespace GenCommon

/-! ## Common generator helpers: embedding of `gts-cli/src/gen_common.rs` -/

/-- Rust `str::lines`: split on `\n`, drop a final empty piece (trailing
newline), strip one trailing `\r` from each line. -/
def stripCR (l : List Char) : List Char :=
  if l.getLast? == some '\r' then l.dropLast else l

def rustLines (content : List Char) : List (List Char) :=
  let parts := splitOnCh '\n' content
  let parts := if parts.getLast? == some [] then parts.dropLast else parts
  parts.map stripCR

/-- The loop body of `has_ignore_directive`, over the (at most 10) lines the
`take(10)` yields: skip blank lines, report the directive, stop at the first
line that is neither a `//` comment nor a `#!` shebang. -/
def hidLoop : List (List Char) → Bool
  | [] => false
  | line :: rest =>
    let trimmed := trimChars line
    if trimmed.isEmpty then hidLoop rest
    else if ("// gts:ignore".toList).isPrefixOf (lowerChars trimmed) then true
    else if ¬ ("//".toList).isPrefixOf trimmed ∧ ¬ ("#!".toList).isPrefixOf trimmed then false
    else hidLoop rest

/-- Check whether file content starts with the gts:ignore directive
(`has_ignore_directive`). -/
def has_ignore_directive (content : List Char) : Bool :=
  hidLoop ((rustLines content).take 10)

/-- The claim's own reading of the ignore directive, written from its words
for comparison with `has_ignore_directive` (a second definition following the
specification text, not the code): within the first 10 non-blank top-of-file
comment lines, some line is equal - case-insensitively, after trimming - to
`// gts:ignore`. -/
def ignoreDirectiveClaim (content : List Char) : Bool :=
  ((((rustLines content).filter
      (fun l => ¬ (trimChars l).isEmpty)).takeWhile
      (fun l => ("//".toList).isPrefixOf (trimChars l))).take 10).any
    (fun l => lowerChars (trimChars l) == "// gts:ignore".toList)

/-- A line on which `hidLoop` reports the directive: its trimmed, lowercased
form starts with `// gts:ignore`. -/
def dirAt (l : List Char) : Prop :=
  ("// gts:ignore".toList).isPrefixOf (lowerChars (trimChars l)) = true

/-- A line over which `hidLoop` passes without stopping: blank, or a `//`
comment, or a `#!` shebang. -/
def passAt (l : List Char) : Prop :=
  trimChars l = [] ∨ ("//".toList).isPrefixOf (trimChars l) = true ∨
    ("#!".toList).isPrefixOf (trimChars l) = true

instance (l : List Char) : Decidable (dirAt l) := by unfold dirAt; infer_instance

instance (l : List Char) : Decidable (passAt l) := by unfold passAt; infer_instance

/-- One directory entry seen by the `walk_rust_files` walk: its path
components, its extension, and the result of reading it (`none` models an
unreadable file). The walk order and the yielded set abstract the `WalkDir`
traversal, which is not part of this repository. -/
structure WalkEntry where
  path : List (List Char)
  ext : Option (List Char)
  read : Option (List Char)
deriving DecidableEq, Repr

/-- Check if a path is in an auto-ignored directory
(`is_in_auto_ignored_dir` with `AUTO_IGNORE_DIRS = ["compile_fail"]`). -/
def is_in_auto_ignored_dir (path : List (List Char)) : Bool :=
  path.contains "compile_fail".toList

/-- Walk Rust source files (`walk_rust_files`) over an abstract entry list;
`excl` abstracts `should_exclude_path` applied to the `--exclude` patterns
(its glob matching runs on the external `regex` crate). Returns
`(files_scanned, files_skipped, visited)` where `visited` collects the
`(path, content)` pairs passed to the visitor, in walk order. -/
def walk_rust_files (excl : List (List Char) → Bool) :
    List WalkEntry → Nat × Nat × List (WalkEntry × List Char)
  | [] => (0, 0, [])
  | e :: rest =>
    if e.ext ≠ some "rs".toList then walk_rust_files excl rest
    else if excl e.path then
      let (s, k, v) := walk_rust_files excl rest
      (s, k + 1, v)
    else if is_in_auto_ignored_dir e.path then
      let (s, k, v) := walk_rust_files excl rest
      (s, k + 1, v)
    else
      match e.read with
      | none =>
        let (s, k, v) := walk_rust_files excl rest
        (s, k + 1, v)
      | some content =>
        if has_ignore_directive content then
          let (s, k, v) := walk_rust_files excl rest
          (s, k + 1, v)
        else
          let (s, k, v) := walk_rust_files excl rest
          (s + 1, k, (e, content) :: v)

/-- Path components in the style of Rust `std::path::Component` (the Windows
prefix component cannot arise in this development). -/
inductive PComp where
  | root
  | curDir
  | parentDir
  | normal (s : List Char)
deriving DecidableEq, Repr

/-- Parse a path string into components the way `Path::components` does:
split on `/`, a leading `/` is the root, empty and interior `.` components
disappear, a leading `.` is kept. -/
def pathCompsOfString (s : List Char) : List PComp :=
  let lead : List PComp := if s.head? == some '/' then [.root] else []
  let parts := splitOnCh '/' s
  lead ++ ((parts.enum.filterMap (fun pi =>
    if pi.2 = [] then none
    else if pi.2 = ['.'] then
      (if pi.1 = 0 ∧ lead = [] then some .curDir else none)
    else if pi.2 = "..".toList then some .parentDir
    else some (.normal pi.2))))

/-- Rust `Path::join`: an absolute right operand replaces the base. -/
def pathJoin (base rel : List PComp) : List PComp :=
  if rel.head? = some .root then rel else base ++ rel

/-- Rust `Path::parent`: strip the last component; the empty path and the
bare root have no parent. -/
def parentPath (p : List PComp) : Option (List PComp) :=
  match p with
  | [] => none
  | [.root] => none
  | _ => some p.dropLast

/-- The filesystem as the canonicalizer sees it: an existence test and a
canonicalization oracle (`none` models an `io::Error`). Both are reads; the
sandbox claims quantify over every oracle. -/
structure FSOracle where
  pexists : List PComp → Bool
  canon : List PComp → Option (List PComp)

/-- Errors of `safe_canonicalize_nonexistent`: the traversal rejection
(`Security error: path traversal via '..' ...`) and a canonicalization
`io::Error`. -/
inductive CanonErr where
  | traversal (p : List PComp)
  | ioErr
deriving DecidableEq, Repr

/-- The ancestor-finding loop of `safe_canonicalize_nonexistent`: peel file
names from the end until an existing ancestor (or a path without a file
name) is reached, accumulating the peeled names in push order. The fuel is
`p.length + 1`, enough for every iteration the loop can make. -/
def findAncAux (fs : FSOracle) : Nat → List PComp → List (List Char) →
    List PComp × List (List Char)
  | 0, p, suffix => (p, suffix)
  | fuel + 1, p, suffix =>
    if fs.pexists p then (p, suffix)
    else
      match p.getLast? with
      | some (.normal name) => findAncAux fs fuel p.dropLast (suffix ++ [name])
      | _ => (p, suffix)

/-- Safe canonicalization for potentially non-existent paths
(`safe_canonicalize_nonexistent`): reject any raw `..` component before any
filesystem access; canonicalize existing paths directly; otherwise
canonicalize the first existing ancestor and re-append the peeled suffix. -/
def safe_canonicalize_nonexistent (fs : FSOracle) (p : List PComp) :
    Except CanonErr (List PComp) :=
  if p.contains .parentDir then .error (.traversal p)
  else if fs.pexists p then
    match fs.canon p with
    | none => .error .ioErr
    | some c => .ok c
  else
    let (anc, suffix) := findAncAux fs (p.length + 1) p []
    match (if fs.pexists anc then fs.canon anc else some anc) with
    | none => .error .ioErr
    | some ca => .ok (ca ++ suffix.reverse.map .normal)

end GenCommon

namespace Gen

/-! ## Artifact emitter: embedding of `gts-cli/src/gen_instances/writer.rs` -/

/-- Parsed and validated attributes from the annotation (`InstanceAttrs`). -/
structure InstanceAttrs where
  dir_path : List Char
  schema_id : List Char
  instance_segment : List Char
deriving DecidableEq, Repr

/-- A parsed and validated instance annotation (`ParsedInstance`). -/
structure ParsedInstance where
  attrs : InstanceAttrs
  json_body : List Char
  source_file : List Char
  line : Nat
deriving DecidableEq, Repr

end Gen

namespace Writer

open GenCommon

/-- Filesystem mutations `generate_single_instance` can perform, in program
order: `create_dir_all` on the output parent, then the file write. -/
inductive Mut where
  | mkdirAll (p : List PComp)
  | write (p : List PComp)
deriving DecidableEq, Repr

/-- Errors of `generate_single_instance`: both the wrapped canonicalizer
failure and the sandbox-boundary bail carry a `Security error ...` message
naming the source file and the `dir_path`; a `serde_json` failure on the
body is `jsonErr`. -/
inductive GenErr where
  | security (source_file dir_path : List Char)
  | jsonErr
deriving DecidableEq, Repr

/-- The composed raw output path of `generate_single_instance`:
`origin / dir_path / "<schema_id><instance_segment>.instance.json"`, where
the origin is the output override if given, else the parent directory of the
source file (or the sandbox root if it has none). -/
def composeRawOutputPath (inst : Gen.ParsedInstance) (output : Option (List Char))
    (sandbox_root : List PComp) : List PComp :=
  let composed := inst.attrs.schema_id ++ inst.attrs.instance_segment
  let file_rel := inst.attrs.dir_path ++ ['/'] ++ composed ++ ".instance.json".toList
  match output with
  | some od => pathJoin (pathCompsOfString od) (pathCompsOfString file_rel)
  | none =>
    let src_dir := (parentPath (pathCompsOfString inst.source_file)).getD sandbox_root
    pathJoin src_dir (pathCompsOfString file_rel)

/-- Generate the instance JSON file for a single parsed annotation
(`generate_single_instance`), against an abstract filesystem oracle.
`parseObjOk` abstracts `serde_json::from_str::<Map<...>>` on the body (the
JSON engine is external to the repository). The result pairs the returned
value (the written path, or the error) with the list of filesystem mutations
performed, in order; validation happens before any mutation. -/
def generate_single_instance (fs : FSOracle) (parseObjOk : List Char → Bool)
    (inst : Gen.ParsedInstance) (output : Option (List Char))
    (sandbox_root : List PComp) : Except GenErr (List PComp) × List Mut :=
  let raw_output_path := composeRawOutputPath inst output sandbox_root
  match safe_canonicalize_nonexistent fs raw_output_path with
  | .error _ => (.error (.security inst.source_file inst.attrs.dir_path), [])
  | .ok output_canonical =>
    if ¬ sandbox_root.isPrefixOf output_canonical then
      (.error (.security inst.source_file inst.attrs.dir_path), [])
    else if ¬ parseObjOk inst.json_body then (.error .jsonErr, [])
    else
      (.ok raw_output_path,
        (match parentPath raw_output_path with
         | some par => [Mut.mkdirAll par]
         | none => []) ++ [Mut.write raw_output_path])

end Writer

namespace Extractor

/-! ## Annotation extractor: embedding of `gts-cli/src/gen_instances/parser.rs`,
`string_lit.rs` and `attrs.rs` -/

/-- The bare needle `#[gts_well_known_instance`. -/
def NEEDLE_BARE : List Char := "#[gts_well_known_instance".toList

/-- The qualified needle `#[gts_macros::gts_well_known_instance`. -/
def NEEDLE_QUAL : List Char := "#[gts_macros::gts_well_known_instance".toList

/-- Count leading `#` characters (the hash run of a raw string opener). -/
def countHashes : List Char → Nat × List Char
  | '#' :: rest => let (n, r) := countHashes rest; (n + 1, r)
  | l => (0, l)

/-- The closing-delimiter scan of `try_skip_raw_string`: walk the body after
the opening quote until a `"` followed by the required run of hashes;
`none` models the unterminated case. Returns the remainder after the
closing delimiter. -/
def rawScan (hashes : Nat) : List Char → Option (List Char)
  | [] => none
  | '"' :: rest =>
    if (List.replicate hashes '#').isPrefixOf rest then some (rest.drop hashes)
    else rawScan hashes rest
  | _ :: rest => rawScan hashes rest

/-- Attempt to skip a raw string starting at an `r` (`try_skip_raw_string`);
returns the remainder after the closing delimiter on success. -/
def try_skip_raw_string (l : List Char) : Option (List Char) :=
  match l with
  | 'r' :: rest =>
    let hr := countHashes rest
    match hr.2 with
    | '"' :: body => rawScan hr.1 body
    | _ => none
  | _ => none

/-- Skip to the next newline, keeping it (the line-comment skip of
`preflight_scan`). -/
def dropToNewline (l : List Char) : List Char := l.dropWhile (· ≠ '\n')

/-- Skip past the end of a block comment (the `/* ... */` skip of
`preflight_scan`); an unterminated comment consumes the rest. -/
def dropBlockComment : List Char → List Char
  | '*' :: '/' :: rest => rest
  | _ :: rest => dropBlockComment rest
  | [] => []

/-- Skip a regular string literal body after the opening quote, honoring
backslash escapes (the string skip of `preflight_scan`). -/
def skipStringLit : List Char → List Char
  | '\\' :: _ :: rest => skipStringLit rest
  | '\\' :: [] => []
  | '"' :: rest => rest
  | _ :: rest => skipStringLit rest
  | [] => []

/-- Drop up to and including the next `'` (the escaped-char-literal skip);
`none` when no closing quote exists. -/
def dropPastQuote : List Char → Option (List Char)
  | [] => none
  | '\'' :: rest => some rest
  | _ :: rest => dropPastQuote rest

/-- The token-aware scan of `preflight_scan`, one fuel unit per iteration of
the source's `while` loop (every iteration consumes at least one character,
so `content.length + 1` fuel is exact). Branches in source order: line
comment, block comment, regular string, raw string, char literal versus
lifetime, then the needle test. -/
def preflightAux : Nat → List Char → Bool
  | 0, _ => false
  | fuel + 1, l =>
    match l with
    | [] => false
    | '/' :: '/' :: rest => preflightAux fuel (dropToNewline rest)
    | '/' :: '*' :: rest => preflightAux fuel (dropBlockComment rest)
    | '"' :: rest => preflightAux fuel (skipStringLit rest)
    | c :: rest =>
      if c = 'r' then
        match try_skip_raw_string (c :: rest) with
        | some after => preflightAux fuel after
        | none =>
          if NEEDLE_QUAL.isPrefixOf (c :: rest) ∨ NEEDLE_BARE.isPrefixOf (c :: rest)
          then true
          else preflightAux fuel rest
      else if c = '\'' then
        match rest with
        | '\\' :: rest2 =>
          match dropPastQuote rest2 with
          | some after => preflightAux fuel after
          | none => preflightAux fuel rest
        | c2 :: rest2 =>
          if c2 = '\'' then preflightAux fuel rest
          else
            match rest2 with
            | '\'' :: rest3 => preflightAux fuel rest3
            | _ => preflightAux fuel rest
        | [] => preflightAux fuel rest
      else if NEEDLE_QUAL.isPrefixOf (c :: rest) ∨ NEEDLE_BARE.isPrefixOf (c :: rest)
      then true
      else preflightAux fuel rest

/-- Token-aware needle scan (`preflight_scan`). -/
def preflight_scan (content : List Char) : Bool :=
  preflightAux (content.length + 1) content

/-- Byte-offset-to-line index (`build_line_offsets`): offset 0 plus the
offset after every newline; always strictly increasing. -/
def build_line_offsets (content : List Char) : List Nat :=
  0 :: content.enum.filterMap (fun ic => if ic.2 = '\n' then some (ic.1 + 1) else none)

/-- Convert a byte offset to a 1-based line number (`byte_offset_to_line`).
The source runs `binary_search` on the strictly increasing offset vector and
maps `Ok(i) => i + 1, Err(i) => i`; on a strictly increasing vector both
cases equal the number of offsets that are at most the given offset. -/
def byte_offset_to_line (offset : Nat) (line_offsets : List Nat) : Nat :=
  line_offsets.countP (fun o => o ≤ offset)

/-- First index at which `needle` occurs in `haystack`
(Rust `str::find` on a literal pattern). -/
def findSub (needle : List Char) : List Char → Option Nat
  | [] => if needle.isEmpty then some 0 else none
  | c :: rest =>
    if needle.isPrefixOf (c :: rest) then some 0
    else (findSub needle rest).map (· + 1)

/-- Line of the first needle in `content`, qualified form checked first
(`find_needle_line`); 1 when neither occurs. -/
def find_needle_line (content : List Char) (line_offsets : List Nat) : Nat :=
  match findSub NEEDLE_QUAL content with
  | some p => byte_offset_to_line p line_offsets
  | none =>
    match findSub NEEDLE_BARE content with
    | some p => byte_offset_to_line p line_offsets
    | none => 1

/-- The claim's own reading of the hard-error line, written from its words
for comparison with `find_needle_line`: the line of the first needle
occurrence, whichever needle form comes first in the text. -/
def firstNeedleOccurrenceLineClaim (content : List Char)
    (line_offsets : List Nat) : Option Nat :=
  match findSub NEEDLE_QUAL content, findSub NEEDLE_BARE content with
  | some a, some b => some (byte_offset_to_line (min a b) line_offsets)
  | some a, none => some (byte_offset_to_line a line_offsets)
  | none, some b => some (byte_offset_to_line b line_offsets)
  | none, none => none

/-- Hexadecimal digit value. -/
def hexDigitVal (c : Char) : Option Nat :=
  if '0' ≤ c ∧ c ≤ '9' then some (c.toNat - 48)
  else if 'a' ≤ c ∧ c ≤ 'f' then some (c.toNat - 87)
  else if 'A' ≤ c ∧ c ≤ 'F' then some (c.toNat - 55)
  else none

/-- Rust `u32::from_str_radix(s, 16)`: optional leading `+`, one or more hex
digits, overflow rejected. -/
def hexParseU32 (l : List Char) : Option Nat :=
  let digits := match l with
    | '+' :: rest => rest
    | d => d
  if digits.isEmpty then none
  else
    match digits.mapM hexDigitVal with
    | none => none
    | some vals =>
      let v := vals.foldl (fun acc d => acc * 16 + d) 0
      if v < 4294967296 then some v else none

/-- Rust `char::from_u32` validity: below `0x110000` and not a surrogate. -/
def validScalar (code : Nat) : Bool :=
  code < 1114112 && ¬ (55296 ≤ code ∧ code ≤ 57343)

/-- Decode the escape sequences of a regular string literal body
(`decode_string_escapes`): `\n`, `\r`, `\t`, `\\`, `\"`, `\'`, `\0` and
`\u` with a braced hex code; the brace-delimited hex is consumed with
`take_while`, which also consumes the closing brace when present. One fuel
unit per consumed character. -/
def decode_string_escapesAux : Nat → List Char → Except (List Char) (List Char)
  | 0, _ => .ok []
  | fuel + 1, l =>
    match l with
    | [] => .ok []
    | '\\' :: rest =>
      match rest with
      | [] => .error "Unexpected end of string after backslash".toList
      | 'n' :: r => (decode_string_escapesAux fuel r).map ('\n' :: ·)
      | 'r' :: r => (decode_string_escapesAux fuel r).map ('\r' :: ·)
      | 't' :: r => (decode_string_escapesAux fuel r).map ('\t' :: ·)
      | '\\' :: r => (decode_string_escapesAux fuel r).map ('\\' :: ·)
      | '"' :: r => (decode_string_escapesAux fuel r).map ('"' :: ·)
      | '\'' :: r => (decode_string_escapesAux fuel r).map ('\'' :: ·)
      | '0' :: r => (decode_string_escapesAux fuel r).map (Char.ofNat 0 :: ·)
      | 'u' :: r =>
        match r with
        | '{' :: r2 =>
          let hex := r2.takeWhile (· ≠ '}')
          let r3 := (r2.drop hex.length).drop 1
          match hexParseU32 hex with
          | none =>
            .error ("Invalid unicode escape \\u\x7b".toList ++ hex ++ "\x7d".toList)
          | some code =>
            if validScalar code then
              (decode_string_escapesAux fuel r3).map (Char.ofNat code :: ·)
            else .error ("Invalid unicode code point ".toList ++ natChars code)
        | _ => .error "Invalid unicode escape: expected \x7b".toList
      | c :: _ => .error ("Unsupported escape sequence: \\".toList ++ [c])
    | c :: rest => (decode_string_escapesAux fuel rest).map (c :: ·)

def decode_string_escapes (s : List Char) : Except (List Char) (List Char) :=
  decode_string_escapesAux (s.length + 1) s

/-- Decode a raw string literal token (`decode_raw_string`): strip `r`, the
hash run, the quotes and the closing hash run; the content is verbatim. -/
def decode_raw_string (token : List Char) : Except (List Char) (List Char) :=
  let after_r := token.drop 1
  let hash_count := (after_r.takeWhile (· = '#')).length
  let inner := after_r.drop hash_count
  match inner with
  | '"' :: inner2 =>
    let closing := '"' :: List.replicate hash_count '#'
    if closing.isSuffixOf inner2 then
      .ok (inner2.take (inner2.length - closing.length))
    else .error "Invalid raw string literal: missing closing quote+hashes".toList
  | _ => .error "Invalid raw string literal: missing opening quote".toList

/-- Decode a Rust string literal token to its content
(`decode_string_literal`): raw strings verbatim, regular strings with their
escapes decoded. -/
def decode_string_literal (token : List Char) : Except (List Char) (List Char) :=
  if startsWithCh token 'r' then decode_raw_string token
  else if startsWithCh token '"' ∧ endsWithCh token '"' ∧ 2 ≤ token.length then
    decode_string_escapes (token.drop 1 |>.dropLast)
  else .error ("Unrecognized string literal form: ".toList ++ token.take 40)

/-- Characters of the regex class `\s`. -/
def isRegexWs (c : Char) : Bool :=
  c = ' ' || c = '\t' || c = '\n' || c = '\r' || c = '\x0b' || c = '\x0c'

/-- Match the content group `([^"\\]*(?:\\.[^"\\]*)*)` followed by the
closing quote, from just after the opening quote: returns the captured
content and the remainder after the closing quote. A backslash before a
newline or at the end fails (regex `.` does not match a newline). -/
def matchStrBody : List Char → Option (List Char × List Char)
  | [] => none
  | '"' :: rest => some ([], rest)
  | '\\' :: c :: rest =>
    if c = '\n' then none
    else (matchStrBody rest).map (fun br => ('\\' :: c :: br.1, br.2))
  | '\\' :: [] => none
  | c :: rest => (matchStrBody rest).map (fun br => (c :: br.1, br.2))

/-- Attempt the pattern `key\s*=\s*"([^"\\]*(?:\\.[^"\\]*)*)"` at the head
of `l`. -/
def matchAttrAt (key : List Char) (l : List Char) : Option (List Char) :=
  if key.isPrefixOf l then
    match (l.drop key.length).dropWhile isRegexWs with
    | '=' :: l2 =>
      match l2.dropWhile isRegexWs with
      | '"' :: body => (matchStrBody body).map (·.1)
      | _ => none
    | _ => none
  else none

/-- Leftmost-match scan for `extract_str_attr`: try the pattern at every
position, left to right. -/
def extractStrAttrAux (key : List Char) : List Char → Option (List Char)
  | [] => none
  | c :: rest =>
    match matchAttrAt key (c :: rest) with
    | some v => some v
    | none => extractStrAttrAux key rest

/-- Extract a `key = "value"` string attribute from an attribute body
(`extract_str_attr`): the first (leftmost) match of
`key\s*=\s*"([^"\\]*(?:\\.[^"\\]*)*)"`, with the captured group returned
as-is. -/
def extract_str_attr (attr_body key : List Char) : Option (List Char) :=
  extractStrAttrAux key attr_body

/-- Identifier-start characters of the duplicate-key regex
`([A-Za-z_][A-Za-z0-9_]*)\s*=`. -/
def isIdentStart (c : Char) : Bool :=
  isLowerAlpha c || ('A' ≤ c && c ≤ 'Z') || c = '_'

def isIdentCont (c : Char) : Bool := isIdentStart c || isDigitCh c

/-- Character blanking used by `blank_string_literals`: ASCII content bytes
become spaces, non-ASCII characters stay (the source leaves non-ASCII bytes
intact to keep the output valid UTF-8). -/
def blankCh (c : Char) : Char := if c.toNat < 128 then ' ' else c

/-- Blank the body of a regular string literal after its opening quote:
returns the blanked content (closing quote kept) and the remainder. -/
def blankRegular : List Char → List Char × List Char
  | [] => ([], [])
  | '\\' :: c :: rest =>
    let br := blankRegular rest
    (' ' :: blankCh c :: br.1, br.2)
  | '\\' :: [] => ([' '], [])
  | '"' :: rest => (['"'], rest)
  | c :: rest =>
    let br := blankRegular rest
    (blankCh c :: br.1, br.2)

/-- Scan the body of a raw string for its closing delimiter, blanking the
content; `none` models an unterminated raw string (on which the source's
`blank_string_literals` loop never advances). -/
def blankRawScan (hashes : Nat) : List Char → Option (List Char × List Char)
  | [] => none
  | '"' :: rest =>
    if (List.replicate hashes '#').isPrefixOf rest then some ([], rest.drop hashes)
    else (blankRawScan hashes rest).map (fun br => (blankCh '"' :: br.1, br.2))
  | c :: rest => (blankRawScan hashes rest).map (fun br => (blankCh c :: br.1, br.2))

/-- Replace the content of every string literal with spaces, preserving
positions (`blank_string_literals`); handles regular and raw strings. One
fuel unit per outer-loop iteration; on an unterminated raw string the
source loops forever and this embedding leaves the tail unchanged. -/
def blankStringLiteralsAux : Nat → List Char → List Char
  | 0, l => l
  | fuel + 1, l =>
    match l with
    | [] => []
    | 'r' :: rest =>
      let hashes := (rest.takeWhile (· = '#')).length
      match rest.drop hashes with
      | '"' :: body =>
        match blankRawScan hashes body with
        | some br =>
          'r' :: List.replicate hashes '#' ++ '"' :: br.1 ++
            '"' :: List.replicate hashes '#' ++ blankStringLiteralsAux fuel br.2
        | none => 'r' :: rest
      | _ => 'r' :: blankStringLiteralsAux fuel rest
    | '"' :: body =>
      let br := blankRegular body
      '"' :: br.1 ++ blankStringLiteralsAux fuel br.2
    | c :: rest => c :: blankStringLiteralsAux fuel rest

def blank_string_literals (s : List Char) : List Char :=
  blankStringLiteralsAux (s.length + 1) s

/-- Attempt the duplicate-key pattern `([A-Za-z_][A-Za-z0-9_]*)\s*=` at the
head of `l`: returns the identifier and the remainder after the `=`. -/
def keyMatchAt (l : List Char) : Option (List Char × List Char) :=
  match l with
  | [] => none
  | c :: rest =>
    if isIdentStart c then
      let identTail := rest.takeWhile isIdentCont
      match (rest.drop identTail.length).dropWhile isRegexWs with
      | '=' :: r2 => some (c :: identTail, r2)
      | _ => none
    else none

/-- Successive non-overlapping leftmost matches of the duplicate-key
pattern (`captures_iter`), collecting the matched identifiers in order. -/
def scanKeys : Nat → List Char → List (List Char)
  | 0, _ => []
  | _ + 1, [] => []
  | fuel + 1, c :: rest =>
    match keyMatchAt (c :: rest) with
    | some ir => ir.1 :: scanKeys fuel ir.2
    | none => scanKeys fuel rest

/-- The known attribute keys. -/
def knownKeys : List (List Char) :=
  ["dir_path".toList, "schema_id".toList, "instance_segment".toList]

/-- First known key that occurs twice in the scanned key list. -/
def firstDupKnown : List (List Char) → List (List Char) → Option (List Char)
  | _, [] => none
  | seen, k :: rest =>
    if knownKeys.contains k then
      if seen.contains k then some k
      else firstDupKnown (k :: seen) rest
    else firstDupKnown seen rest

/-- Structured errors of the annotation extractor; each constructor stands
for one `anyhow` message shape of the source, carrying the data the message
interpolates. -/
inductive ExtErr where
  | duplicateAttr (file : List Char) (line : Nat) (key : List Char)
  | missingAttr (file : List Char) (line : Nat) (key : List Char)
  | schemaNoTilde (file : List Char) (line : Nat) (schema_id : List Char)
  | segmentTilde (file : List Char) (line : Nat) (seg : List Char)
  | segmentWildcard (file : List Char) (line : Nat)
  | invalidComposedId (file : List Char) (line : Nat) (composed msg : List Char)
  | decodeLit (file : List Char) (line : Nat) (msg : List Char)
  | malformedJson (file : List Char) (line : Nat)
  | notObject (file : List Char) (line : Nat) (got : List Char)
  | idInBody (file : List Char) (line : Nat)
  | unsupportedStatic (file : List Char) (line : Nat)
  | unsupportedConcat (file : List Char) (line : Nat)
  | unsupportedWrongType (file : List Char) (line : Nat)
  | notParsed (file : List Char) (line : Nat)
deriving DecidableEq, Repr

/-- Error if any known attribute key appears more than once in the body
(`check_duplicate_attr_keys`); string literal content is blanked first. -/
def check_duplicate_attr_keys (attr_body file : List Char) (line : Nat) :
    Except ExtErr Unit :=
  let stripped := blank_string_literals attr_body
  match firstDupKnown [] (scanKeys (stripped.length + 1) stripped) with
  | some k => .error (.duplicateAttr file line k)
  | none => .ok ()

/-- The cause rendering `parse_instance_attrs` applies to a composed-ID
validation failure. -/
def composedErrMsg : GtsId.GtsIdError → List Char
  | .id _ cause => cause
  | .segment num _ _ cause => "segment #".toList ++ natChars num ++ ": ".toList ++ cause

/-- Parse and validate the instance annotation attribute body
(`parse_instance_attrs`): duplicate check, the three required attributes,
the tilde and wildcard shape checks, then full grammar validation of
`schema_id + instance_segment` with wildcards disabled. -/
def parse_instance_attrs (attr_body file : List Char) (line : Nat) :
    Except ExtErr Gen.InstanceAttrs :=
  match check_duplicate_attr_keys attr_body file line with
  | .error e => .error e
  | .ok () =>
    match extract_str_attr attr_body "dir_path".toList with
    | none => .error (.missingAttr file line "dir_path".toList)
    | some dir_path =>
      match extract_str_attr attr_body "schema_id".toList with
      | none => .error (.missingAttr file line "schema_id".toList)
      | some schema_id =>
        match extract_str_attr attr_body "instance_segment".toList with
        | none => .error (.missingAttr file line "instance_segment".toList)
        | some instance_segment =>
          if ¬ endsWithCh schema_id '~' then
            .error (.schemaNoTilde file line schema_id)
          else if endsWithCh instance_segment '~' then
            .error (.segmentTilde file line instance_segment)
          else if instance_segment = ['*'] then
            .error (.segmentWildcard file line)
          else
            match GtsId.validate_gts_id (schema_id ++ instance_segment) false with
            | .error e =>
              .error (.invalidComposedId file line (schema_id ++ instance_segment)
                (composedErrMsg e))
            | .ok _ => .ok ⟨dir_path, schema_id, instance_segment⟩

/-- Generic JSON values (the shape of `serde_json::Value` this development
needs; numbers are modelled by an integer payload, which no claim
inspects). -/
inductive Json where
  | null
  | bool (b : Bool)
  | num (n : Int)
  | str (s : List Char)
  | arr (elems : List Json)
  | obj (fields : List (List Char × Json))

/-- The got-type naming of `json_type_name`. -/
def json_type_name : Json → List Char
  | .null => "null".toList
  | .bool _ => "boolean".toList
  | .num _ => "number".toList
  | .str _ => "string".toList
  | .arr _ => "array".toList
  | .obj _ => "object".toList

/-- Rust `Value::is_object`. -/
def jsonIsObject : Json → Bool
  | .obj _ => true
  | _ => false

/-- Rust `value.get("id").is_some()` on the parsed root. -/
def jsonObjHasId : Json → Bool
  | .obj fields => fields.any (fun f => f.1 = "id".toList)
  | _ => false

/-- Validate the decoded JSON body (`validate_json_body`), applied to the
outcome of the external `serde_json` parse (an error position, or the parsed
value): the root must parse, be an object, and not contain the key `id`. -/
def validate_json_body (parseResult : Except (Nat × Nat) Json)
    (file : List Char) (line : Nat) : Except ExtErr Unit :=
  match parseResult with
  | .error _ => .error (.malformedJson file line)
  | .ok v =>
    if ¬ jsonIsObject v then .error (.notObject file line (json_type_name v))
    else if jsonObjHasId v then .error (.idInBody file line)
    else .ok ()

/-- One match of the annotation regex over the comment-stripped source
(`annotation_re.captures_iter`): the match start offset, capture group 1
(the attribute body) and capture group 2 (the string literal token). The
regex engine is external to the repository; the extractor is parameterized
by the matches it yields. -/
structure Capture where
  start : Nat
  attrBody : List Char
  lit : List Char
deriving DecidableEq, Repr

/-- The results of the three unsupported-form regexes over the stripped
source (`check_unsupported_forms`): the match start of the `static`
pattern, of the `concat!` pattern, and of the wrong-type pattern together
with its captured type name. -/
structure UnsupMatches where
  staticStart : Option Nat
  concatStart : Option Nat
  wrongType : Option (Nat × List Char)
deriving DecidableEq, Repr

/-- Detect known unsupported annotation forms (`check_unsupported_forms`),
in source order; the wrong-type pattern only errors when the captured type
is not `str`. -/
def check_unsupported_forms (u : UnsupMatches) (file : List Char)
    (line_offsets : List Nat) : Except ExtErr Unit :=
  match u.staticStart with
  | some s => .error (.unsupportedStatic file (byte_offset_to_line s line_offsets))
  | none =>
    match u.concatStart with
    | some s => .error (.unsupportedConcat file (byte_offset_to_line s line_offsets))
    | none =>
      match u.wrongType with
      | some st =>
        if st.2 ≠ "str".toList then
          .error (.unsupportedWrongType file (byte_offset_to_line st.1 line_offsets))
        else .ok ()
      | none => .ok ()

/-- Process one regex capture: attribute parse, literal decode, payload
validation (the body of the `captures_iter` loop in
`extract_instances_from_source`). -/
def processCapture (jsonParse : List Char → Except (Nat × Nat) Json)
    (file : List Char) (line_offsets : List Nat) (cap : Capture) :
    Except ExtErr Gen.ParsedInstance :=
  let line := byte_offset_to_line cap.start line_offsets
  match parse_instance_attrs cap.attrBody file line with
  | .error e => .error e
  | .ok attrs =>
    match decode_string_literal cap.lit with
    | .error m => .error (.decodeLit file line m)
    | .ok json_body =>
      match validate_json_body (jsonParse json_body) file line with
      | .error e => .error e
      | .ok () => .ok ⟨attrs, json_body, file, line⟩

/-- The `captures_iter` loop: process captures left to right, stopping at
the first error. -/
def processCaptures (jsonParse : List Char → Except (Nat × Nat) Json)
    (file : List Char) (line_offsets : List Nat) :
    List Capture → Except ExtErr (List Gen.ParsedInstance)
  | [] => .ok []
  | c :: rest =>
    match processCapture jsonParse file line_offsets c with
    | .error e => .error e
    | .ok inst =>
      match processCaptures jsonParse file line_offsets rest with
      | .error e => .error e
      | .ok insts => .ok (inst :: insts)

/-- Extract all annotated consts from a source text
(`extract_instances_from_source`), parameterized by the external engines:
`captures` are the annotation-regex matches over the comment-stripped
source, `unsup` the unsupported-form regex results, `jsonParse` the JSON
engine. Preflight gate, capture loop, unsupported-form diagnostics, and the
hard "found but could not be parsed" error when nothing matched. -/
def extract_instances_from_source (content source_file : List Char)
    (captures : List Capture) (unsup : UnsupMatches)
    (jsonParse : List Char → Except (Nat × Nat) Json) :
    Except ExtErr (List Gen.ParsedInstance) :=
  if ¬ preflight_scan content then .ok []
  else
    let line_offsets := build_line_offsets content
    match processCaptures jsonParse source_file line_offsets captures with
    | .error e => .error e
    | .ok instances =>
      match check_unsupported_forms unsup source_file line_offsets with
      | .error e => .error e
      | .ok () =>
        if instances.isEmpty then
          .error (.notParsed source_file (find_needle_line content line_offsets))
        else .ok instances

end Extractor

namespace Yaml

/-! ## YAML scanner: embedding of `gts-validator/src/format/yaml.rs` -/

/-- A validation error produced by `walk_json_value`; its fields are not
inspected here, so it is abstracted to an opaque token type parameter in the
scanner below. -/
def ValErr : Type := Nat

/-- Scan error kinds (`ScanErrorKind`), restricted to the kind this file
produces. -/
inductive ScanErrorKind where
  | yamlParseError
deriving DecidableEq, Repr

/-- A scan error (`ScanError`): the file, the kind, and the message rendered
exactly as the source formats it. -/
structure ScanError where
  file : List Char
  kind : ScanErrorKind
  message : List Char
deriving DecidableEq, Repr

/-- Split YAML content into documents on lines equal (after trimming) to
`---`, dropping segments that are blank after trimming
(`split_yaml_documents`). -/
def split_yaml_documents (content : List Char) : List (List Char) :=
  let step := (GenCommon.rustLines content).foldl
    (fun (acc : List (List Char) × List (List Char)) line =>
      if trimChars line = "---".toList then
        let doc := joinWithCh '\n' acc.2.reverse
        if (trimChars doc).isEmpty then (acc.1, [])
        else (acc.1 ++ [doc], [])
      else (acc.1, line :: acc.2))
    ([], [])
  let doc := joinWithCh '\n' step.2.reverse
  if (trimChars doc).isEmpty then step.1 else step.1 ++ [doc]

/-- The per-document parse failure message. -/
def docErrMsg (idx : Nat) (docErr : List Char) : List Char :=
  "YAML parse error in document ".toList ++ natChars (idx + 1) ++
    " of multi-document stream: ".toList ++ docErr

/-- The file-level parse failure message. -/
def fileErrMsg (streamErr : List Char) : List Char :=
  "YAML parse error: ".toList ++ streamErr

/-- The fallback loop of `scan_yaml_content` over the split segments:
`idx` is the 0-based document index, `anyParsed` the running flag;
returns the accumulated validation errors, scan errors, and the flag. -/
def scanSegments (path : List Char)
    (parseDoc : List Char → Except (List Char) Extractor.Json)
    (walk : Extractor.Json → List ValErr) :
    Nat → Bool → List (List Char) → List ValErr × List ScanError × Bool
  | _, anyParsed, [] => ([], [], anyParsed)
  | idx, anyParsed, seg :: rest =>
    match parseDoc seg with
    | .ok doc =>
      let r := scanSegments path parseDoc walk (idx + 1) true rest
      (walk doc ++ r.1, r.2.1, r.2.2)
    | .error docErr =>
      let r := scanSegments path parseDoc walk (idx + 1) anyParsed rest
      (r.1, ⟨path, .yamlParseError, docErrMsg idx docErr⟩ :: r.2.1, r.2.2)

/-- Scan YAML content (`scan_yaml_content`), parameterized by the external
`serde_saphyr` engine (`parseMulti` for the whole stream, `parseDoc` per
document) and by `walk_json_value` (`walk`, the JSON-tree scanner living in
`format/json.rs`): parse the whole stream, walking every document on
success; on stream failure split on `---` lines and retry per document,
collecting per-document `YamlParseError` scan errors, and replace them by a
single file-level error when no document parsed. -/
def scan_yaml_content (content path : List Char)
    (parseMulti : List Char → Except (List Char) (List Extractor.Json))
    (parseDoc : List Char → Except (List Char) Extractor.Json)
    (walk : Extractor.Json → List ValErr) :
    List ValErr × List ScanError :=
  match parseMulti content with
  | .ok docs => ((docs.map walk).flatten, [])
  | .error streamErr =>
    let segments := split_yaml_documents content
    let r := scanSegments path parseDoc walk 0 false segments
    if r.2.2 = false then
      (r.1, [⟨path, .yamlParseError, fileErrMsg streamErr⟩])
    else (r.1, r.2.1)

/-- The claim's reading of the document split, for comparison with
`split_yaml_documents`: split on lines exactly equal to `---` (no
trimming) and keep every non-empty segment (rather than every segment
that is non-blank after trimming). -/
def splitYamlDocumentsClaimwise (content : List Char) : List (List Char) :=
  let step := (GenCommon.rustLines content).foldl
    (fun (acc : List (List Char) × List (List Char)) line =>
      if line = "---".toList then
        let doc := joinWithCh '\n' acc.2.reverse
        if doc = [] then (acc.1, [])
        else (acc.1 ++ [doc], [])
      else (acc.1, line :: acc.2))
    ([], [])
  let doc := joinWithCh '\n' step.2.reverse
  if doc = [] then step.1 else step.1 ++ [doc]

end Yaml

/-! ## Theorems -/

theorem natCharsAux_fuel_irrel : ∀ f g n, n < f → n < g →
    natCharsAux f n = natCharsAux g n := by
  intro f
  induction f using Nat.strong_induction_on with
  | _ f ih =>
    intro g n hf hg
    match f, g with
    | f' + 1, g' + 1 =>
      simp only [natCharsAux]
      split
      · rfl
      · have : n / 10 < n := Nat.div_lt_self (by omega) (by omega)
        rw [ih f' (by omega) g' (n / 10) (by omega) (by omega)]

theorem natChars_unfold (n : Nat) :
    natChars n = if n < 10 then [digitChar n]
                 else natChars (n / 10) ++ [digitChar (n % 10)] := by
  unfold natChars
  conv_lhs => rw [natCharsAux]
  split
  · rfl
  · have : n / 10 < n := Nat.div_lt_self (by omega) (by omega)
    rw [natCharsAux_fuel_irrel n (n / 10 + 1) (n / 10) (by omega) (by omega)]

theorem natChars_ne_nil (n : Nat) : natChars n ≠ [] := by
  rw [natChars_unfold]
  split <;> simp

/-- A canonical decimal rendering starts with the digit zero only for the
number zero itself. -/
theorem natChars_head_zero : ∀ n, (natChars n).head? = some '0' → n = 0 := by
  intro n
  induction n using Nat.strong_induction_on with
  | _ n ih =>
    rw [natChars_unfold]
    split
    · intro h
      simp only [List.head?_cons, Option.some.injEq] at h
      rename_i hlt
      interval_cases n
      · rfl
      all_goals exact absurd h (by decide)
    · intro h
      have hne := natChars_ne_nil (n / 10)
      have h10 : ¬ n < 10 := by assumption
      cases hh : natChars (n / 10) with
      | nil => exact absurd hh hne
      | cons a l =>
        rw [hh] at h
        simp only [List.cons_append, List.head?_cons, Option.some.injEq] at h
        have : n / 10 = 0 := by
          apply ih (n / 10) (Nat.div_lt_self (by omega) (by omega))
          rw [hh, h]; rfl
        omega

theorem splitOnCh_ne_nil (sep : Char) (l : List Char) : splitOnCh sep l ≠ [] := by
  cases l with
  | nil => simp [splitOnCh]
  | cons c rest =>
    simp only [splitOnCh]
    split
    · simp
    · split <;> simp

theorem joinWithCh_splitOnCh (sep : Char) (l : List Char) :
    joinWithCh sep (splitOnCh sep l) = l := by
  induction l with
  | nil => rfl
  | cons c rest ih =>
    simp only [splitOnCh]
    split
    · rename_i hc
      cases hr : splitOnCh sep rest with
      | nil => exact absurd hr (splitOnCh_ne_nil sep rest)
      | cons h t =>
        rw [hr] at ih
        subst hc
        simpa [joinWithCh] using ih
    · cases hr : splitOnCh sep rest with
      | nil => exact absurd hr (splitOnCh_ne_nil sep rest)
      | cons h t =>
        rw [hr] at ih
        cases t with
        | nil => simpa [joinWithCh] using ih
        | cons h2 t2 => simpa [joinWithCh] using ih

section GtsIdSanity

example :
    GtsId.validate_gts_id "gts.x.core.events.event.v1~".toList false =
      .ok [⟨"x.core.events.event.v1~".toList, 4, ['x'], "core".toList,
            "events".toList, "event".toList, 1, none, true, false⟩] := by decide

example :
    GtsId.validate_segment 1 "x.core.events.event.v1.2~".toList false =
      .ok ⟨"x.core.events.event.v1.2~".toList, 0, ['x'], "core".toList,
            "events".toList, "event".toList, 1, some 2, true, false⟩ := by decide

example : GtsId.parse_u32_exact "01".toList = none := by decide

example : GtsId.parse_u32_exact "0".toList = some 0 := by decide

end GtsIdSanity

namespace GtsId

theorem validate_segment_ok_cases (num : Nat) (segment : List Char) (aw : Bool)
    (p : ParsedSegment) (h : validate_segment num segment aw = .ok p) :
    ∃ seg it, stripTilde segment = some (seg, it) ∧
      validateSegCore num segment seg it aw = .ok p := by
  unfold validate_segment at h
  unfold stripTilde
  split_ifs at h ⊢ <;> first
    | exact absurd h (by simp)
    | exact ⟨_, _, rfl, h⟩

theorem buildSegment_raw (r : List Char) (it aw : Bool) (ts : List (List Char))
    (p : ParsedSegment) (h : buildSegment r it aw ts = .ok p) : p.raw = r := by
  unfold buildSegment at h
  repeat' (first | (split at h) | (dsimp only at h))
  all_goals simp only [Except.ok.injEq, reduceCtorEq] at h
  all_goals (subst h; rfl)

theorem validateSegCore_raw (num : Nat) (rawSeg seg : List Char) (it aw : Bool)
    (p : ParsedSegment) (h : validateSegCore num rawSeg seg it aw = .ok p) :
    p.raw = rawSeg := by
  unfold validateSegCore at h
  repeat' (first | (split at h) | (dsimp only at h))
  all_goals try (simp only [reduceCtorEq] at h)
  all_goals exact buildSegment_raw _ _ _ _ _ h

/-- A segment accepted by `validate_segment` records the raw segment string
it was given, verbatim. -/
theorem validate_segment_raw (num : Nat) (segment : List Char) (aw : Bool)
    (p : ParsedSegment) (h : validate_segment num segment aw = .ok p) :
    p.raw = segment := by
  obtain ⟨seg, it, -, hcore⟩ := validate_segment_ok_cases num segment aw p h
  exact validateSegCore_raw _ _ _ _ _ _ hcore

/-- The validation loop of `validate_gts_id` keeps the raw segment strings,
in order. -/
theorem validateLoop_raws (id : List Char) (aw : Bool) :
    ∀ (segs_raw : List (List Char)) (i off : Nat) (segs : List ParsedSegment),
      validateLoop id aw i off segs_raw = .ok segs →
      segs.map (·.raw) = segs_raw := by
  intro segs_raw
  induction segs_raw with
  | nil => intro i off segs h; cases h; rfl
  | cons seg rest ih =>
    intro i off segs h
    unfold validateLoop at h
    split at h
    · exact absurd h (by simp)
    · split at h
      · exact absurd h (by simp)
      · rename_i parsed hseg
        split at h
        · exact absurd h (by simp)
        · rename_i others hrest
          cases h
          simp only [List.map_cons]
          rw [ih _ _ _ hrest]
          have := validate_segment_raw _ _ _ _ hseg
          simp [this]

/-- Concatenating the segment strings assembled by `buildSegmentsRaw` undoes
the split on `~`. -/
theorem buildSegmentsRaw_flatten :
    ∀ parts : List (List Char),
      (buildSegmentsRaw parts).flatten = joinWithCh '~' parts := by
  intro parts
  induction parts with
  | nil => rfl
  | cons p rest ih =>
    cases rest with
    | nil => simp [buildSegmentsRaw, joinWithCh]
    | cons q rest2 =>
      simp only [buildSegmentsRaw]
      split
      · rename_i hcond
        obtain ⟨h1, h2⟩ := hcond
        subst h1; subst h2
        simp [joinWithCh]
      · simp only [List.flatten_cons]
        rw [ih]
        simp [joinWithCh]

end GtsId

theorem append_drop_of_isPrefixOf {l r : List Char} (h : l.isPrefixOf r = true) :
    l ++ r.drop l.length = r := by
  rw [List.isPrefixOf_iff_prefix] at h
  obtain ⟨t, rfl⟩ := h
  simp

/-- C3, amended: for every input accepted by `validate_gts_id`, concatenating
the `gts.` prefix with the raw fields of the returned segments in order yields
the trimmed input (the original input with its surrounding whitespace
removed), character for character. -/
theorem C3_roundtrip_of_accepted (id : List Char) (aw : Bool)
    (segs : List GtsId.ParsedSegment)
    (h : GtsId.validate_gts_id id aw = .ok segs) :
    GtsId.GTS_PREFIX ++ (segs.map (·.raw)).flatten = trimChars id := by
  unfold GtsId.validate_gts_id at h
  repeat' (first | (split at h) | (dsimp only at h))
  all_goals try (exact absurd h (by simp))
  rename_i hpre _ _ _ _
  have hpre' : GtsId.GTS_PREFIX.isPrefixOf (trimChars id) = true := by
    by_contra hc
    exact hpre (by simpa using hc)
  have hmap := GtsId.validateLoop_raws id aw _ 0 GtsId.GTS_PREFIX.length segs h
  rw [hmap, GtsId.buildSegmentsRaw_flatten, joinWithCh_splitOnCh]
  exact append_drop_of_isPrefixOf hpre'

/-- Witness for C3: a concrete accepted identifier and its reconstruction. -/
theorem C3_roundtrip_witness :
    GtsId.GTS_PREFIX ++
      (([⟨"x.core.events.event.v1~".toList, 4, ['x'], "core".toList,
          "events".toList, "event".toList, 1, none, true, false⟩] :
          List GtsId.ParsedSegment).map (·.raw)).flatten =
      trimChars "  gts.x.core.events.event.v1~  ".toList :=
  C3_roundtrip_of_accepted "  gts.x.core.events.event.v1~  ".toList false _ (by decide)

/-- Counterexample to C3 as stated: the identifier
`" gts.x.core.events.event.v1~"` (with a leading space) is accepted, but the
reconstruction from the returned segments yields the trimmed string, which
differs from the original input byte sequence. -/
theorem C3_claim_counterexample :
    GtsId.validate_gts_id " gts.x.core.events.event.v1~".toList false =
      .ok [⟨"x.core.events.event.v1~".toList, 4, ['x'], "core".toList,
            "events".toList, "event".toList, 1, none, true, false⟩] ∧
    GtsId.GTS_PREFIX ++
      (([⟨"x.core.events.event.v1~".toList, 4, ['x'], "core".toList,
          "events".toList, "event".toList, 1, none, true, false⟩] :
          List GtsId.ParsedSegment).map (·.raw)).flatten ≠
      " gts.x.core.events.event.v1~".toList := by
  constructor
  · decide
  · decide

theorem validate_segment_eq_core (num : Nat) (segment seg : List Char)
    (it : Bool) (aw : Bool) (h : GtsId.stripTilde segment = some (seg, it)) :
    GtsId.validate_segment num segment aw =
      GtsId.validateSegCore num segment seg it aw := by
  unfold GtsId.stripTilde at h
  unfold GtsId.validate_segment
  split_ifs at h ⊢ <;> simp_all

/-- C4: if the tilde handling of `validate_segment` accepts a segment, the
dot-split of the stripped segment yields exactly 6 tokens, the 5th token does
not start with `v`, the 6th does, and the 5th is a valid name token, then
`validate_segment` (wildcards disabled) fails with the "Too many name tokens
before version" error; and concretely, the chained identifier of the claim is
rejected with a Segment error with num = 2, offset = 28 and a cause that
contains "Too many name tokens before version". -/
theorem C4_too_many_name_tokens (num : Nat) (segment seg : List Char)
    (it : Bool) (t0 t1 t2 t3 t4 t5 : List Char)
    (hstrip : GtsId.stripTilde segment = some (seg, it))
    (hsplit : splitOnCh '.' seg = [t0, t1, t2, t3, t4, t5])
    (h4 : startsWithCh t4 'v' = false)
    (h5 : startsWithCh t5 'v' = true)
    (hval : GtsId.is_valid_segment_token t4 = true) :
    GtsId.validate_segment num segment false =
      .error (GtsId.tooManyNamesMsg (GtsId.expected_format num)) ∧
    (GtsId.validate_gts_id
        "gts.x.core.modkit.plugin.v1~x.core.license_enforcer.integration.plugin.v1~".toList
        false =
      .error (.segment 2 28 "x.core.license_enforcer.integration.plugin.v1~".toList
        (GtsId.tooManyNamesMsg (GtsId.expected_format 2))) ∧
    "Too many name tokens before version".toList <:+:
      GtsId.tooManyNamesMsg (GtsId.expected_format 2)) := by
  refine ⟨?_, by decide, by decide⟩
  rw [validate_segment_eq_core num segment seg it false hstrip]
  unfold GtsId.validateSegCore
  rw [hsplit]
  simp [h4, h5, hval]

/-- Witness for C4 at the concrete segment `x.core.ns.type.extra.v1~`. -/
theorem C4_too_many_name_tokens_witness :
    GtsId.validate_segment 2 "x.core.ns.type.extra.v1~".toList false =
      .error (GtsId.tooManyNamesMsg (GtsId.expected_format 2)) ∧
    (GtsId.validate_gts_id
        "gts.x.core.modkit.plugin.v1~x.core.license_enforcer.integration.plugin.v1~".toList
        false =
      .error (.segment 2 28 "x.core.license_enforcer.integration.plugin.v1~".toList
        (GtsId.tooManyNamesMsg (GtsId.expected_format 2))) ∧
    "Too many name tokens before version".toList <:+:
      GtsId.tooManyNamesMsg (GtsId.expected_format 2)) :=
  C4_too_many_name_tokens 2 "x.core.ns.type.extra.v1~".toList
    "x.core.ns.type.extra.v1".toList true
    "x".toList "core".toList "ns".toList "type".toList "extra".toList "v1".toList
    (by decide) (by decide) (by decide) (by decide) (by decide)

theorem parse_u32_exact_spec (v : List Char) (m : Nat)
    (h : GtsId.parse_u32_exact v = some m) :
    natChars m = v ∧ m < 4294967296 := by
  unfold GtsId.parse_u32_exact at h
  split at h
  · exact absurd h (by simp)
  · rename_i parsed heq
    split at h
    · rename_i hnc
      simp only [Option.some.injEq] at h
      subst h
      refine ⟨hnc, ?_⟩
      unfold GtsId.parseU32Rust at heq
      repeat' (first | (split at heq) | (dsimp only at heq))
      all_goals simp_all
    · exact absurd h (by simp)

theorem startsWithCh_eq_cons {l : List Char} {c : Char}
    (h : startsWithCh l c = true) : l = c :: l.drop 1 := by
  cases l <;> simp_all [startsWithCh]

theorem buildSegment_versions (r : List Char) (it : Bool)
    (tokens : List (List Char)) (ps : GtsId.ParsedSegment)
    (hlen : tokens.length = 5 ∨ tokens.length = 6)
    (h : GtsId.buildSegment r it false tokens = .ok ps) :
    tokens.getD 4 [] = 'v' :: natChars ps.ver_major ∧
    ps.ver_major < 4294967296 ∧
    (∀ m, ps.ver_minor = some m →
      tokens.getD 5 [] = natChars m ∧ m < 4294967296) ∧
    (tokens.length = 6 ↔ ps.ver_minor.isSome = true) := by
  rcases tokens with _ | ⟨t0, _ | ⟨t1, _ | ⟨t2, _ | ⟨t3, _ | ⟨t4, rest⟩⟩⟩⟩⟩ <;>
    simp only [List.length_cons, List.length_nil] at hlen <;> try omega
  rcases rest with _ | ⟨t5, _ | ⟨t6, rest2⟩⟩ <;>
    simp only [List.length_cons, List.length_nil] at hlen <;> try omega
  · -- five tokens: minor absent
    unfold GtsId.buildSegment at h
    simp only [Bool.false_and, Bool.false_eq_true, if_false, ite_false] at h
    split at h
    · exact absurd h (by simp)
    · rename_i hsw
      split at h
      · exact absurd h (by simp)
      · rename_i m hm
        simp only [Except.ok.injEq] at h
        subst h
        obtain ⟨hnc, hbound⟩ := parse_u32_exact_spec _ _ hm
        have ht4 : t4 = 'v' :: t4.drop 1 :=
          startsWithCh_eq_cons (by revert hsw; cases hsw2 : startsWithCh t4 'v' <;> simp)
        refine ⟨?_, hbound, by simp, by simp⟩
        simp only [List.getD_cons_succ, List.getD_cons_zero]
        rw [hnc]
        exact ht4
  · -- six tokens: minor present
    unfold GtsId.buildSegment at h
    simp only [Bool.false_and, Bool.false_eq_true, if_false, ite_false] at h
    split at h
    · exact absurd h (by simp)
    · rename_i hsw
      split at h
      · exact absurd h (by simp)
      · rename_i m hm
        split at h
        · exact absurd h (by simp)
        · rename_i mi hmi
          simp only [Except.ok.injEq] at h
          subst h
          obtain ⟨hnc, hbound⟩ := parse_u32_exact_spec _ _ hm
          obtain ⟨hnc5, hbound5⟩ := parse_u32_exact_spec _ _ hmi
          have ht4 : t4 = 'v' :: t4.drop 1 :=
            startsWithCh_eq_cons (by revert hsw; cases hsw2 : startsWithCh t4 'v' <;> simp)
          refine ⟨?_, hbound, ?_, by simp⟩
          · simp only [List.getD_cons_succ, List.getD_cons_zero]
            rw [hnc]
            exact ht4
          · intro m2 hm2
            simp only [Option.some.injEq] at hm2
            subst hm2
            exact ⟨by simpa [List.getD_cons_succ, List.getD_cons_zero] using hnc5.symm, hbound5⟩

theorem validateSegCore_ok_buildSegment (num : Nat) (rawSeg seg : List Char)
    (it aw : Bool) (ps : GtsId.ParsedSegment)
    (h : GtsId.validateSegCore num rawSeg seg it aw = .ok ps) :
    (splitOnCh '.' seg).length ≤ 6 ∧
    (aw = false → 5 ≤ (splitOnCh '.' seg).length) ∧
    GtsId.buildSegment rawSeg it aw (splitOnCh '.' seg) = .ok ps := by
  unfold GtsId.validateSegCore at h
  dsimp only at h
  split at h
  · exact absurd h (by simp)
  · rename_i h6
    split at h
    · exact absurd h (by simp)
    · rename_i h5
      split at h
      · exact absurd h (by simp)
      · split at h
        · exact absurd h (by simp)
        · refine ⟨by omega, ?_, h⟩
          intro haw
          subst haw
          simp at h5
          omega

/-- C9: in every segment accepted with wildcards disabled, the 5th dot-token
of the tilde-stripped segment is the letter `v` followed by the canonical
decimal rendering of the parsed major version (a value below 2^32), the 6th
dot-token (when present) is the canonical decimal rendering of the parsed
minor version, a minor version is parsed exactly when a 6th token is present;
`parse_u32_exact` rejects `01`, and the only accepted version numeral whose
first character is `0` is the literal `0`. -/
theorem C9_version_tokens_canonical (num : Nat) (segment : List Char)
    (ps : GtsId.ParsedSegment)
    (h : GtsId.validate_segment num segment false = .ok ps) :
    (∃ seg it, GtsId.stripTilde segment = some (seg, it) ∧
      (splitOnCh '.' seg).getD 4 [] = 'v' :: natChars ps.ver_major ∧
      ps.ver_major < 4294967296 ∧
      (∀ m, ps.ver_minor = some m →
        (splitOnCh '.' seg).getD 5 [] = natChars m ∧ m < 4294967296) ∧
      ((splitOnCh '.' seg).length = 6 ↔ ps.ver_minor.isSome = true)) ∧
    GtsId.parse_u32_exact "01".toList = none ∧
    (∀ v m, GtsId.parse_u32_exact v = some m → v.head? = some '0' → v = ['0']) := by
  obtain ⟨seg, it, hstrip, hcore⟩ := GtsId.validate_segment_ok_cases num segment false ps h
  refine ⟨⟨seg, it, hstrip, ?_⟩, by decide, ?_⟩
  · obtain ⟨h6, h5, hb⟩ := validateSegCore_ok_buildSegment num segment seg it false ps hcore
    exact buildSegment_versions segment it (splitOnCh '.' seg) ps
      (by have := h5 rfl; omega) hb
  · intro v m hp h0
    obtain ⟨hnc, -⟩ := parse_u32_exact_spec v m hp
    have hm0 : m = 0 := natChars_head_zero m (by rw [hnc]; exact h0)
    subst hm0
    rw [← hnc]
    decide

/-- Witness for C9 at the concrete segment `x.core.events.event.v1.2~`. -/
theorem C9_version_tokens_canonical_witness :
    (∃ seg it, GtsId.stripTilde "x.core.events.event.v1.2~".toList = some (seg, it) ∧
      (splitOnCh '.' seg).getD 4 [] = 'v' ::
        natChars (GtsId.ParsedSegment.ver_major
          ⟨"x.core.events.event.v1.2~".toList, 0, ['x'], "core".toList,
            "events".toList, "event".toList, 1, some 2, true, false⟩) ∧
      (GtsId.ParsedSegment.ver_major
          ⟨"x.core.events.event.v1.2~".toList, 0, ['x'], "core".toList,
            "events".toList, "event".toList, 1, some 2, true, false⟩) < 4294967296 ∧
      (∀ m, (GtsId.ParsedSegment.ver_minor
          ⟨"x.core.events.event.v1.2~".toList, 0, ['x'], "core".toList,
            "events".toList, "event".toList, 1, some 2, true, false⟩) = some m →
        (splitOnCh '.' seg).getD 5 [] = natChars m ∧ m < 4294967296) ∧
      ((splitOnCh '.' seg).length = 6 ↔ (GtsId.ParsedSegment.ver_minor
          ⟨"x.core.events.event.v1.2~".toList, 0, ['x'], "core".toList,
            "events".toList, "event".toList, 1, some 2, true, false⟩).isSome = true)) ∧
    GtsId.parse_u32_exact "01".toList = none ∧
    (∀ v m, GtsId.parse_u32_exact v = some m → v.head? = some '0' → v = ['0']) :=
  C9_version_tokens_canonical 1 "x.core.events.event.v1.2~".toList
    ⟨"x.core.events.event.v1.2~".toList, 0, ['x'], "core".toList,
      "events".toList, "event".toList, 1, some 2, true, false⟩ (by decide)

theorem startsWithCh_length {l : List Char} {c : Char}
    (h : startsWithCh l c = true) : 1 ≤ l.length := by
  cases l <;> simp_all [startsWithCh]

theorem bchkAt5_isSome (r : List Char) (it aw : Bool) (tokens : List (List Char))
    (t0 t1 t2 t3 : List Char) (m : Nat) :
    (GtsId.bchkAt5 r it aw tokens t0 t1 t2 t3 m).isSome = true := by
  unfold GtsId.bchkAt5 GtsId.idxChk
  repeat' split
  all_goals try rfl
  rename_i hlen hnone
  rw [List.getElem?_eq_none_iff] at hnone
  omega

theorem bchkAt4_isSome (r : List Char) (it aw : Bool) (tokens : List (List Char))
    (t0 t1 t2 t3 : List Char) :
    (GtsId.bchkAt4 r it aw tokens t0 t1 t2 t3).isSome = true := by
  unfold GtsId.bchkAt4 GtsId.idxChk GtsId.sliceFromChk
  repeat' split
  all_goals try rfl
  all_goals try (apply bchkAt5_isSome)
  · rename_i hlen hnone
    rw [List.getElem?_eq_none_iff] at hnone
    omega
  · rename_i hsw hslice
    split at hslice
    · simp at hslice
    · rename_i hb
      exact absurd (startsWithCh_length (c := 'v') (by simp_all)) hb

theorem bchkAt3_isSome (r : List Char) (it aw : Bool) (tokens : List (List Char))
    (t0 t1 t2 : List Char) :
    (GtsId.bchkAt3 r it aw tokens t0 t1 t2).isSome = true := by
  unfold GtsId.bchkAt3 GtsId.idxChk
  repeat' split
  all_goals try rfl
  all_goals try (apply bchkAt4_isSome)
  rename_i hlen hnone
  rw [List.getElem?_eq_none_iff] at hnone
  omega

theorem bchkAt2_isSome (r : List Char) (it aw : Bool) (tokens : List (List Char))
    (t0 t1 : List Char) :
    (GtsId.bchkAt2 r it aw tokens t0 t1).isSome = true := by
  unfold GtsId.bchkAt2 GtsId.idxChk
  repeat' split
  all_goals try rfl
  all_goals try (apply bchkAt3_isSome)
  rename_i hlen hnone
  rw [List.getElem?_eq_none_iff] at hnone
  omega

theorem bchkAt1_isSome (r : List Char) (it aw : Bool) (tokens : List (List Char))
    (t0 : List Char) :
    (GtsId.bchkAt1 r it aw tokens t0).isSome = true := by
  unfold GtsId.bchkAt1 GtsId.idxChk
  repeat' split
  all_goals try rfl
  all_goals try (apply bchkAt2_isSome)
  rename_i hlen hnone
  rw [List.getElem?_eq_none_iff] at hnone
  omega

theorem buildSegmentChk_isSome (r : List Char) (it aw : Bool)
    (tokens : List (List Char)) :
    (GtsId.buildSegmentChk r it aw tokens).isSome = true := by
  unfold GtsId.buildSegmentChk GtsId.idxChk
  repeat' split
  all_goals try rfl
  all_goals try (apply bchkAt1_isSome)
  rename_i hne hx hnone
  rw [List.getElem?_eq_none_iff] at hnone
  cases tokens with
  | nil => simp at hne
  | cons a l => simp at hnone

theorem isSome_ne_none {A : Type} {o : Option A} (h : o.isSome = true) :
    o ≠ none := by
  cases o <;> simp_all

theorem extraNameGuardChk_isSome (aw : Bool) (seg : List Char)
    (tokens : List (List Char)) :
    (GtsId.extraNameGuardChk aw seg tokens).isSome = true := by
  unfold GtsId.extraNameGuardChk GtsId.idxChk
  split
  case isFalse => rfl
  rename_i hc
  obtain ⟨-, hlen6⟩ := hc
  repeat' split
  all_goals try rfl
  all_goals simp_all [List.getElem?_eq_none_iff]

theorem validateSegCoreChk_isSome (num : Nat) (rawSeg seg : List Char)
    (it aw : Bool) :
    (GtsId.validateSegCoreChk num rawSeg seg it aw).isSome = true := by
  unfold GtsId.validateSegCoreChk
  try dsimp only
  split
  · rfl
  · split
    · rfl
    · split
      · rename_i hnone
        exact absurd hnone (isSome_ne_none (extraNameGuardChk_isSome aw seg _))
      · rfl
      · split
        · rfl
        · apply buildSegmentChk_isSome

theorem validate_segmentChk_isSome (num : Nat) (segment : List Char) (aw : Bool) :
    (GtsId.validate_segmentChk num segment aw).isSome = true := by
  unfold GtsId.validate_segmentChk
  repeat' split
  all_goals try rfl
  all_goals apply validateSegCoreChk_isSome

theorem validateLoopChk_isSome (id : List Char) (aw : Bool) :
    ∀ (segs_raw : List (List Char)) (i off : Nat),
      (GtsId.validateLoopChk id aw i off segs_raw).isSome = true := by
  intro segs_raw
  induction segs_raw with
  | nil => intro i off; rfl
  | cons seg rest ih =>
    intro i off
    unfold GtsId.validateLoopChk
    split
    · rfl
    · split
      · rename_i hnone
        exact absurd hnone (isSome_ne_none (validate_segmentChk_isSome (i + 1) seg aw))
      · rfl
      · split
        · rename_i hnone
          exact absurd hnone (isSome_ne_none (ih (i + 1) (off + seg.length)))
        · rfl
        · rfl

/-- C10: the embedded `validate_segment` and `validate_gts_id` never panic:
their checked mirrors - in which every Rust slice and index operation
(`tokens[4]`, `tokens[5]`, `tokens[i]` in the build phase, `&tokens[4][1..]`,
`&raw[GTS_PREFIX.len()..]`) is replaced by a guarded operation that returns
`none` exactly where Rust would panic - return `some` result (a parsed value
or an error) on every input string and every wildcard flag. -/
theorem C10_total_no_panic (num : Nat) (segment id : List Char) (aw : Bool) :
    (GtsId.validate_segmentChk num segment aw).isSome = true ∧
    (GtsId.validate_gts_idChk id aw).isSome = true := by
  refine ⟨validate_segmentChk_isSome num segment aw, ?_⟩
  unfold GtsId.validate_gts_idChk
  try dsimp only
  split
  · rfl
  · split
    · rfl
    · split
      · rfl
      · split
        · rfl
        · rename_i hpre _ _ _
          split
          · rename_i hnone
            unfold GtsId.sliceFromChk at hnone
            split at hnone
            · simp at hnone
            · rename_i hlen
              exfalso
              apply hlen
              have hp0 : GtsId.GTS_PREFIX.isPrefixOf (trimChars id) = true := by
                by_contra hc
                exact hpre hc
              exact (List.isPrefixOf_iff_prefix.mp hp0).length_le
          · split
            · rfl
            · apply validateLoopChk_isSome

theorem safe_canonicalize_parentDir (fs : GenCommon.FSOracle) (p : List GenCommon.PComp)
    (h : p.contains .parentDir = true) :
    GenCommon.safe_canonicalize_nonexistent fs p = .error (.traversal p) := by
  unfold GenCommon.safe_canonicalize_nonexistent
  rw [if_pos h]

/-- C1: for every annotation instance, every filesystem oracle, every JSON
engine and every output override, if the composed raw output path has a `..`
component anywhere, or its canonicalized form does not lie inside the sandbox
root, then `generate_single_instance` returns a security error and performs
no filesystem mutation (no directory creation, no write); more generally
every error outcome performs no mutation, and every path actually written
canonicalizes to a path inside the sandbox root. -/
theorem C1_sandbox_containment (fs : GenCommon.FSOracle)
    (parseObjOk : List Char → Bool) (inst : Gen.ParsedInstance)
    (output : Option (List Char)) (sandbox_root : List GenCommon.PComp) :
    (∀ e, (Writer.generate_single_instance fs parseObjOk inst output sandbox_root).1 =
        .error e →
      (Writer.generate_single_instance fs parseObjOk inst output sandbox_root).2 = []) ∧
    ((Writer.composeRawOutputPath inst output sandbox_root).contains .parentDir = true →
      Writer.generate_single_instance fs parseObjOk inst output sandbox_root =
        (.error (.security inst.source_file inst.attrs.dir_path), [])) ∧
    (∀ c, GenCommon.safe_canonicalize_nonexistent fs
        (Writer.composeRawOutputPath inst output sandbox_root) = .ok c →
      sandbox_root.isPrefixOf c = false →
      Writer.generate_single_instance fs parseObjOk inst output sandbox_root =
        (.error (.security inst.source_file inst.attrs.dir_path), [])) ∧
    (∀ p, Writer.Mut.write p ∈
        (Writer.generate_single_instance fs parseObjOk inst output sandbox_root).2 →
      ∃ c, GenCommon.safe_canonicalize_nonexistent fs p = .ok c ∧
        sandbox_root.isPrefixOf c = true) := by
  refine ⟨?_, ?_, ?_, ?_⟩
  · intro e he
    unfold Writer.generate_single_instance at he ⊢
    repeat' (first | (split at he) | (dsimp only at he))
    all_goals simp_all
  · intro h
    unfold Writer.generate_single_instance
    dsimp only
    rw [safe_canonicalize_parentDir fs _ h]
  · intro c hc hout
    unfold Writer.generate_single_instance
    dsimp only
    rw [hc]
    simp [hout]
  · intro p hp
    unfold Writer.generate_single_instance at hp
    dsimp only at hp
    split at hp
    · simp at hp
    · rename_i c hc
      split at hp
      · simp at hp
      · rename_i hin
        split at hp
        · simp at hp
        · simp only [List.mem_append, List.mem_singleton] at hp
          have hpraw : p = Writer.composeRawOutputPath inst output sandbox_root := by
            rcases hp with hp | hp
            · exfalso
              revert hp
              split <;> simp
            · simpa using hp
          subst hpraw
          exact ⟨c, hc, by revert hin; cases hq : sandbox_root.isPrefixOf c <;> simp⟩

/-- Witness for C1 at a concrete instance whose `dir_path` is `../../etc`:
the composed raw path contains `..`, the call returns the security error and
mutates nothing. -/
theorem C1_sandbox_containment_witness :
    Writer.generate_single_instance
      ⟨fun _ => false, fun p => some p⟩ (fun _ => true)
      ⟨⟨"../../etc".toList, "gts.x.core.events.topic.v1~".toList,
        "x.commerce._.orders.v1.0".toList⟩,
        "\x7b\x7d".toList, "/sandbox/module.rs".toList, 1⟩
      (some "/sandbox".toList) [.root, .normal "sandbox".toList] =
      (.error (.security "/sandbox/module.rs".toList "../../etc".toList), []) :=
  (C1_sandbox_containment ⟨fun _ => false, fun p => some p⟩ (fun _ => true)
    ⟨⟨"../../etc".toList, "gts.x.core.events.topic.v1~".toList,
      "x.commerce._.orders.v1.0".toList⟩,
      "\x7b\x7d".toList, "/sandbox/module.rs".toList, 1⟩
    (some "/sandbox".toList) [.root, .normal "sandbox".toList]).2.1 (by decide)

theorem getD_take_of_lt {l : List (List Char)} {n i : Nat} (h : i < n) :
    (l.take n).getD i [] = l.getD i [] := by
  rw [List.getD_eq_getElem?_getD, List.getD_eq_getElem?_getD,
    List.getElem?_take_of_lt h]

theorem hidLoop_iff (lines : List (List Char)) :
    GenCommon.hidLoop lines = true ↔
    ∃ i, i < lines.length ∧ GenCommon.dirAt (lines.getD i []) ∧
      ∀ j, j < i → GenCommon.passAt (lines.getD j []) := by
  induction lines with
  | nil => simp [GenCommon.hidLoop]
  | cons line rest ih =>
    unfold GenCommon.hidLoop
    dsimp only
    split_ifs with h1 h2 h3
    · rw [ih]
      have hnd : ¬ GenCommon.dirAt line := by
        simp only [List.isEmpty_iff] at h1
        simp [GenCommon.dirAt, h1, lowerChars]
      have hps : GenCommon.passAt line := Or.inl (List.isEmpty_iff.mp h1)
      constructor
      · rintro ⟨i, hi, hd, hp⟩
        refine ⟨i + 1, by simpa using hi, by simpa using hd, ?_⟩
        intro j hj
        cases j with
        | zero => simpa using hps
        | succ j => simpa using hp j (by omega)
      · rintro ⟨i, hi, hd, hp⟩
        cases i with
        | zero => exact absurd (by simpa using hd) hnd
        | succ i =>
          refine ⟨i, by simpa using hi, by simpa using hd, ?_⟩
          intro j hj
          simpa using hp (j + 1) (by omega)
    · refine iff_of_true rfl ⟨0, by simp, by simpa [GenCommon.dirAt] using h2, ?_⟩
      intro j hj
      omega
    · refine iff_of_false (by simp) ?_
      rintro ⟨i, hi, hd, hp⟩
      cases i with
      | zero => exact h2 (by simpa [GenCommon.dirAt] using hd)
      | succ i =>
        have h0 := hp 0 (by omega)
        simp only [List.getD_cons_zero] at h0
        rcases h0 with hb | hc | hs
        · exact h1 (by simp [hb])
        · exact h3.1 hc
        · exact h3.2 hs
    · rw [ih]
      constructor
      · rintro ⟨i, hi, hd, hp⟩
        refine ⟨i + 1, by simpa using hi, by simpa using hd, ?_⟩
        intro j hj
        cases j with
        | zero =>
          simp only [List.getD_cons_zero]
          rcases not_and_or.mp h3 with hc | hs
          · exact Or.inr (Or.inl (not_not.mp hc))
          · exact Or.inr (Or.inr (not_not.mp hs))
        | succ j => simpa using hp j (by omega)
      · rintro ⟨i, hi, hd, hp⟩
        cases i with
        | zero => exact absurd (by simpa [GenCommon.dirAt] using hd) h2
        | succ i =>
          refine ⟨i, by simpa using hi, by simpa using hd, ?_⟩
          intro j hj
          simpa using hp (j + 1) (by omega)

theorem has_ignore_directive_iff (content : List Char) :
    GenCommon.has_ignore_directive content = true ↔
    ∃ i, i < 10 ∧ i < (GenCommon.rustLines content).length ∧
      GenCommon.dirAt ((GenCommon.rustLines content).getD i []) ∧
      ∀ j, j < i → GenCommon.passAt ((GenCommon.rustLines content).getD j []) := by
  unfold GenCommon.has_ignore_directive
  rw [hidLoop_iff]
  constructor
  · rintro ⟨i, hi, hd, hp⟩
    rw [List.length_take] at hi
    have hi10 : i < 10 := by omega
    have hilen : i < (GenCommon.rustLines content).length := by omega
    rw [getD_take_of_lt hi10] at hd
    refine ⟨i, hi10, hilen, hd, ?_⟩
    intro j hj
    have := hp j hj
    rwa [getD_take_of_lt (by omega)] at this
  · rintro ⟨i, hi10, hilen, hd, hp⟩
    refine ⟨i, ?_, ?_, ?_⟩
    · rw [List.length_take]; omega
    · rwa [getD_take_of_lt hi10]
    · intro j hj
      rw [getD_take_of_lt (by omega)]
      exact hp j hj

theorem walk_not_mem_of_directive (excl : List (List Char) → Bool)
    (content : List Char) (e : GenCommon.WalkEntry)
    (hdir : GenCommon.has_ignore_directive content = true) :
    ∀ entries, (e, content) ∉ (GenCommon.walk_rust_files excl entries).2.2 := by
  intro entries
  induction entries with
  | nil => simp [GenCommon.walk_rust_files]
  | cons f rest ih =>
    unfold GenCommon.walk_rust_files
    split_ifs with hext hexcl hauto
    · exact ih
    · exact ih
    · exact ih
    · split
      · exact ih
      · rename_i cf hcf
        split
        · exact ih
        · rename_i hnd
          intro hmem
          simp only [List.mem_cons] at hmem
          rcases hmem with heq | hmem
          · have : cf = content := by
              have := congrArg Prod.snd heq
              simpa using this.symm
            rw [this] at hnd
            exact hnd hdir
          · exact ih hmem

theorem walk_mem_of_no_directive (excl : List (List Char) → Bool)
    (content : List Char) (e : GenCommon.WalkEntry)
    (hext : e.ext = some "rs".toList) (hexcl : excl e.path = false)
    (hauto : GenCommon.is_in_auto_ignored_dir e.path = false)
    (hread : e.read = some content)
    (hnd : GenCommon.has_ignore_directive content = false) :
    ∀ entries, e ∈ entries →
      (e, content) ∈ (GenCommon.walk_rust_files excl entries).2.2 := by
  intro entries
  induction entries with
  | nil => simp
  | cons f rest ih =>
    intro hmem
    simp only [List.mem_cons] at hmem
    unfold GenCommon.walk_rust_files
    rcases hmem with heq | hmem
    · subst heq
      rw [if_neg (by simp [hext]), if_neg (by simp [hexcl]),
        if_neg (by simp [hauto])]
      rw [hread]
      dsimp only
      rw [if_neg (by simp [hnd])]
      simp
    · have htail := ih hmem
      split_ifs with h1 h2 h3
      · exact htail
      · exact htail
      · exact htail
      · split
        · exact htail
        · split
          · exact htail
          · simp [htail]

/-- C8 (amended): a readable `.rs` file that is neither excluded nor in an
auto-ignored directory is skipped by the walk - equivalently, never passed to
the visitor - if and only if some line among the first 10 lines of its
content has a trimmed form that, lowercased, starts with `// gts:ignore`,
with every earlier line blank, a `//` comment, or a `#!` shebang line. -/
theorem C8_ignore_directive_skip (excl : List (List Char) → Bool)
    (entries : List GenCommon.WalkEntry) (e : GenCommon.WalkEntry)
    (content : List Char) (hmem : e ∈ entries)
    (hext : e.ext = some "rs".toList) (hexcl : excl e.path = false)
    (hauto : GenCommon.is_in_auto_ignored_dir e.path = false)
    (hread : e.read = some content) :
    ((e, content) ∉ (GenCommon.walk_rust_files excl entries).2.2 ↔
      GenCommon.has_ignore_directive content = true) ∧
    (GenCommon.has_ignore_directive content = true ↔
      ∃ i, i < 10 ∧ i < (GenCommon.rustLines content).length ∧
        GenCommon.dirAt ((GenCommon.rustLines content).getD i []) ∧
        ∀ j, j < i → GenCommon.passAt ((GenCommon.rustLines content).getD j [])) := by
  refine ⟨?_, has_ignore_directive_iff content⟩
  constructor
  · intro hnot
    by_contra hdir
    have hnd : GenCommon.has_ignore_directive content = false := by
      cases h : GenCommon.has_ignore_directive content
      · rfl
      · exact absurd h hdir
    exact hnot (walk_mem_of_no_directive excl content e hext hexcl hauto hread hnd
      entries hmem)
  · intro hdir
    exact walk_not_mem_of_directive excl content e hdir entries

/-- Witness for C8 at a concrete entry without the directive: the file is
visited. -/
theorem C8_ignore_directive_skip_witness :
    ((⟨["src".toList, "a.rs".toList], some "rs".toList,
        some "fn main()".toList⟩ : GenCommon.WalkEntry), "fn main()".toList) ∈
      (GenCommon.walk_rust_files (fun _ => false)
        [⟨["src".toList, "a.rs".toList], some "rs".toList,
          some "fn main()".toList⟩]).2.2 := by
  by_contra hnot
  have h := (C8_ignore_directive_skip (fun _ => false)
      [⟨["src".toList, "a.rs".toList], some "rs".toList, some "fn main()".toList⟩]
      ⟨["src".toList, "a.rs".toList], some "rs".toList, some "fn main()".toList⟩
      "fn main()".toList (by decide) (by decide) (by decide) (by decide)
      (by decide)).1.mp hnot
  exact absurd h (by decide)

/-- Counterexample to C8 as stated: the content `// gts:ignored` makes
`has_ignore_directive` skip the file (the check is a prefix test), yet no
line is equal, case-insensitively after trimming, to `// gts:ignore`, so the
claim's own reading of the directive does not hold; the walk skips the file
(0 scanned, 1 skipped, nothing visited). -/
theorem C8_claim_counterexample :
    GenCommon.has_ignore_directive "// gts:ignored".toList = true ∧
    GenCommon.ignoreDirectiveClaim "// gts:ignored".toList = false ∧
    GenCommon.walk_rust_files (fun _ => false)
      [⟨["f.rs".toList], some "rs".toList, some "// gts:ignored".toList⟩] =
      (0, 1, []) := by
  refine ⟨by decide, by decide, by decide⟩

/-- C2 (amended): preflight-negative sources yield `Ok` with the empty list;
any extraction that emits at least one instance had a positive preflight;
and a positive preflight with no annotation-regex match and no
unsupported-form match is the hard "annotation found but could not be
parsed" error carrying the line `find_needle_line` computes - the first
occurrence of the qualified needle when one exists, otherwise of the bare
needle. -/
theorem C2_extraction_contract (content source_file : List Char)
    (captures : List Extractor.Capture) (unsup : Extractor.UnsupMatches)
    (jsonParse : List Char → Except (Nat × Nat) Extractor.Json) :
    (Extractor.preflight_scan content = false →
      Extractor.extract_instances_from_source content source_file captures unsup
        jsonParse = .ok []) ∧
    (∀ insts, Extractor.extract_instances_from_source content source_file captures
        unsup jsonParse = .ok insts → insts ≠ [] →
      Extractor.preflight_scan content = true) ∧
    (Extractor.preflight_scan content = true → captures = [] →
      unsup = ⟨none, none, none⟩ →
      Extractor.extract_instances_from_source content source_file captures unsup
        jsonParse =
        .error (.notParsed source_file
          (Extractor.find_needle_line content
            (Extractor.build_line_offsets content)))) := by
  refine ⟨?_, ?_, ?_⟩
  · intro h
    unfold Extractor.extract_instances_from_source
    simp [h]
  · intro insts hok hne
    by_contra hpre
    have hfalse : Extractor.preflight_scan content = false := by
      cases h : Extractor.preflight_scan content
      · rfl
      · exact absurd h hpre
    unfold Extractor.extract_instances_from_source at hok
    rw [hfalse] at hok
    simp at hok
    exact hne hok
  · intro hpre hcap hunsup
    subst hcap
    subst hunsup
    unfold Extractor.extract_instances_from_source
    simp [hpre, Extractor.processCaptures, Extractor.check_unsupported_forms]

/-- Witness for C2 on a concrete preflight-positive source with no regex
match. -/
theorem C2_extraction_contract_witness :
    Extractor.extract_instances_from_source
      "#[gts_well_known_instance(".toList "w.rs".toList [] ⟨none, none, none⟩
      (fun _ => .error (0, 0)) =
      .error (.notParsed "w.rs".toList
        (Extractor.find_needle_line "#[gts_well_known_instance(".toList
          (Extractor.build_line_offsets "#[gts_well_known_instance(".toList))) :=
  (C2_extraction_contract "#[gts_well_known_instance(".toList "w.rs".toList []
    ⟨none, none, none⟩ (fun _ => .error (0, 0))).2.2 (by decide) rfl rfl

/-- Counterexample to C2 as stated: a source whose first line holds the bare
needle and whose second line holds the qualified needle. The annotation
regex has no match (no `const` item follows either attribute) and no
unsupported-form pattern matches, so the extractor emits the hard error -
but carrying line 2 (the qualified needle is looked up first), not the line
of the first needle occurrence, which is line 1. -/
theorem C2_claim_counterexample :
    Extractor.extract_instances_from_source
      "#[gts_well_known_instance(x)]\n#[gts_macros::gts_well_known_instance(y)]".toList
      "t.rs".toList [] ⟨none, none, none⟩ (fun _ => .error (0, 0)) =
      .error (.notParsed "t.rs".toList 2) ∧
    Extractor.firstNeedleOccurrenceLineClaim
      "#[gts_well_known_instance(x)]\n#[gts_macros::gts_well_known_instance(y)]".toList
      (Extractor.build_line_offsets
        "#[gts_well_known_instance(x)]\n#[gts_macros::gts_well_known_instance(y)]".toList) =
      some 1 ∧ (2 : Nat) ≠ 1 := by
  refine ⟨by decide, by decide, by decide⟩

theorem matchStrBody_sound : ∀ (l v r : List Char),
    Extractor.matchStrBody l = some (v, r) → l = v ++ '"' :: r := by
  intro l
  induction l using Extractor.matchStrBody.induct
  all_goals intro v r h
  all_goals simp_all [Extractor.matchStrBody]
  all_goals
    (obtain ⟨a, ha, hv⟩ := h
     rename_i ih
     subst hv
     simp [ih _ _ ha])

theorem matchAttrAt_sound (key l v : List Char)
    (h : Extractor.matchAttrAt key l = some v) :
    ∃ w1 w2 rest,
      l = key ++ w1 ++ '=' :: (w2 ++ '"' :: (v ++ '"' :: rest)) ∧
      w1.all Extractor.isRegexWs = true ∧ w2.all Extractor.isRegexWs = true := by
  unfold Extractor.matchAttrAt at h
  split at h
  · rename_i hp
    obtain ⟨t, ht⟩ := List.isPrefixOf_iff_prefix.mp hp
    split at h
    · rename_i l2 heq
      split at h
      · rename_i body heq2
        obtain ⟨content, rest, hm⟩ : ∃ c r, Extractor.matchStrBody body = some (c, r) := by
          cases hmb : Extractor.matchStrBody body with
          | none => rw [hmb] at h; simp at h
          | some cr => exact ⟨cr.1, cr.2, by simp [hmb]⟩
        rw [hm] at h
        simp only [Option.map_some', Option.some.injEq] at h
        subst h
        refine ⟨(l.drop key.length).takeWhile Extractor.isRegexWs,
          l2.takeWhile Extractor.isRegexWs, rest, ?_, List.all_takeWhile,
          List.all_takeWhile⟩
        have hdrop : l.drop key.length = t := by
          rw [← ht, List.drop_left]
        have hsplit1 : (l.drop key.length).takeWhile Extractor.isRegexWs ++
            ('=' :: l2) = t := by
          rw [← heq, ← hdrop]
          apply List.takeWhile_append_dropWhile
        have hsplit2 : l2.takeWhile Extractor.isRegexWs ++ ('"' :: body) = l2 := by
          rw [← heq2]
          apply List.takeWhile_append_dropWhile
        have hbody := matchStrBody_sound body content rest hm
        have hl2 : l2 = l2.takeWhile Extractor.isRegexWs ++
            '"' :: (content ++ '"' :: rest) := by
          conv_lhs => rw [← hsplit2]
          rw [hbody]
        have ht2 : t = (l.drop key.length).takeWhile Extractor.isRegexWs ++
            '=' :: (l2.takeWhile Extractor.isRegexWs ++
              '"' :: (content ++ '"' :: rest)) := by
          conv_lhs => rw [← hsplit1, hl2]
        conv_lhs => rw [← ht, ht2]
        simp
      · simp at h
    · simp at h
  · simp at h

theorem extractStrAttrAux_sound (key : List Char) : ∀ (body v : List Char),
    Extractor.extractStrAttrAux key body = some v →
    ∃ pre w1 w2 rest,
      body = pre ++ key ++ w1 ++ '=' :: (w2 ++ '"' :: (v ++ '"' :: rest)) ∧
      w1.all Extractor.isRegexWs = true ∧ w2.all Extractor.isRegexWs = true := by
  intro body
  induction body with
  | nil => intro v h; simp [Extractor.extractStrAttrAux] at h
  | cons c rest ih =>
    intro v h
    unfold Extractor.extractStrAttrAux at h
    split at h
    · rename_i v0 hm
      simp only [Option.some.injEq] at h
      subst h
      obtain ⟨w1, w2, r2, hdec, hw1, hw2⟩ := matchAttrAt_sound key (c :: rest) v0 hm
      exact ⟨[], w1, w2, r2, by simpa using hdec, hw1, hw2⟩
    · obtain ⟨pre, w1, w2, r2, hdec, hw1, hw2⟩ := ih v h
      exact ⟨c :: pre, w1, w2, r2, by simp [hdec], hw1, hw2⟩

/-- C5 (amended): every value `extract_str_attr` records for a key is the
verbatim character sequence standing between the quotes of a regular-string
literal located by `key\s*=\s*"..."` in the attribute body - escape
sequences are left undecoded, and raw-string attribute values are never
matched. -/
theorem C5_attr_value_verbatim (body key v : List Char)
    (h : Extractor.extract_str_attr body key = some v) :
    ∃ pre w1 w2 rest,
      body = pre ++ key ++ w1 ++ '=' :: (w2 ++ '"' :: (v ++ '"' :: rest)) ∧
      w1.all Extractor.isRegexWs = true ∧ w2.all Extractor.isRegexWs = true :=
  extractStrAttrAux_sound key body v h

/-- Witness for C5 on a concrete body. -/
theorem C5_attr_value_verbatim_witness :
    ∃ pre w1 w2 rest,
      "dir_path = \"x\"".toList =
        pre ++ "dir_path".toList ++ w1 ++ '=' ::
          (w2 ++ '"' :: (['x'] ++ '"' :: rest)) ∧
      w1.all Extractor.isRegexWs = true ∧ w2.all Extractor.isRegexWs = true :=
  C5_attr_value_verbatim "dir_path = \"x\"".toList "dir_path".toList ['x'] (by decide)

/-- Counterexample to C5 as stated: in the body `dir_path = "a\nb"` (the
two characters backslash and `n` inside the literal) the recorded value is
the undecoded four-character sequence, not the three-character decoded
content that `decode_string_escapes` produces; and a raw-string attribute
value `dir_path = r"abc"` is not matched at all. -/
theorem C5_claim_counterexample :
    Extractor.extract_str_attr "dir_path = \"a\\nb\"".toList "dir_path".toList =
      some ['a', '\\', 'n', 'b'] ∧
    Extractor.decode_string_escapes ['a', '\\', 'n', 'b'] = .ok ['a', '\n', 'b'] ∧
    (['a', '\\', 'n', 'b'] : List Char) ≠ ['a', '\n', 'b'] ∧
    Extractor.extract_str_attr "dir_path = r\"abc\"".toList "dir_path".toList =
      none := by
  refine ⟨by decide, by decide, by decide, by decide⟩

theorem processCaptures_error_of_mem (jsonParse : List Char → Except (Nat × Nat) Extractor.Json)
    (file : List Char) (line_offsets : List Nat) (c : Extractor.Capture)
    (e : Extractor.ExtErr)
    (hc : Extractor.processCapture jsonParse file line_offsets c = .error e) :
    ∀ captures, c ∈ captures →
      ∃ e2, Extractor.processCaptures jsonParse file line_offsets captures =
        .error e2 := by
  intro captures
  induction captures with
  | nil => simp
  | cons f rest ih =>
    intro hmem
    simp only [List.mem_cons] at hmem
    unfold Extractor.processCaptures
    rcases hmem with heq | hmem
    · subst heq
      rw [hc]
      exact ⟨e, rfl⟩
    · cases hf : Extractor.processCapture jsonParse file line_offsets f with
      | error e3 => exact ⟨e3, rfl⟩
      | ok inst =>
        obtain ⟨e2, he2⟩ := ih hmem
        rw [he2]
        exact ⟨e2, rfl⟩

/-- C6: the decoded payload must parse to a JSON object: a non-object root
is rejected with an error naming the got-type, an object containing the key
`id` is rejected (concretely, the payload with fields `id` and `name`), and
whenever any capture's processing fails - in particular on these payload
errors - the whole extraction returns an error, so no parsed instance is
produced (the emitter, which alone writes files, is only invoked on
successfully extracted instances). -/
theorem C6_payload_object_no_id (file : List Char) (line : Nat) :
    (∀ v, Extractor.jsonIsObject v = false →
      Extractor.validate_json_body (.ok v) file line =
        .error (.notObject file line (Extractor.json_type_name v))) ∧
    (∀ v, Extractor.jsonIsObject v = true → Extractor.jsonObjHasId v = true →
      Extractor.validate_json_body (.ok v) file line =
        .error (.idInBody file line)) ∧
    (Extractor.validate_json_body
        (.ok (.obj [("id".toList, .str "bad".toList),
                    ("name".toList, .str "x".toList)])) file line =
      .error (.idInBody file line)) ∧
    (∀ content source_file captures unsup jsonParse c e,
      Extractor.preflight_scan content = true →
      c ∈ captures →
      Extractor.processCapture jsonParse source_file
        (Extractor.build_line_offsets content) c = .error e →
      ∃ e2, Extractor.extract_instances_from_source content source_file captures
        unsup jsonParse = .error e2) := by
  refine ⟨?_, ?_, ?_, ?_⟩
  · intro v hv
    unfold Extractor.validate_json_body
    simp [hv]
  · intro v hv hid
    unfold Extractor.validate_json_body
    simp [hv, hid]
  · rfl
  · intro content source_file captures unsup jsonParse c e hpre hmem hc
    obtain ⟨e2, he2⟩ := processCaptures_error_of_mem jsonParse source_file
      (Extractor.build_line_offsets content) c e hc captures hmem
    refine ⟨e2, ?_⟩
    unfold Extractor.extract_instances_from_source
    rw [hpre]
    dsimp only
    rw [he2]
    simp

/-- Witness for C6: the concrete payload of the claim fed through a capture,
failing the whole extraction. -/
theorem C6_payload_object_no_id_witness :
    (Extractor.validate_json_body
        (.ok (.arr [])) "t.rs".toList 1 =
      .error (.notObject "t.rs".toList 1 (Extractor.json_type_name (.arr [])))) ∧
    (Extractor.validate_json_body
        (.ok (.obj [("id".toList, .str "bad".toList),
                    ("name".toList, .str "x".toList)])) "t.rs".toList 1 =
      .error (.idInBody "t.rs".toList 1)) ∧
    ∃ e2, Extractor.extract_instances_from_source
        "#[gts_well_known_instance(".toList "t.rs".toList
        [⟨0, "x".toList, "\"y\"".toList⟩] ⟨none, none, none⟩
        (fun _ => .error (0, 0)) = .error e2 :=
  ⟨(C6_payload_object_no_id "t.rs".toList 1).1 (.arr []) rfl,
   (C6_payload_object_no_id "t.rs".toList 1).2.2.1,
   (C6_payload_object_no_id "t.rs".toList 1).2.2.2
     "#[gts_well_known_instance(".toList "t.rs".toList
     [⟨0, "x".toList, "\"y\"".toList⟩] ⟨none, none, none⟩
     (fun _ => .error (0, 0)) ⟨0, "x".toList, "\"y\"".toList⟩
     (.missingAttr "t.rs".toList 1 "dir_path".toList)
     (by decide) (by simp) (by decide)⟩

theorem scanSegments_spec (path : List Char)
    (parseDoc : List Char → Except (List Char) Extractor.Json)
    (walk : Extractor.Json → List Yaml.ValErr) :
    ∀ (segs : List (List Char)) (idx : Nat) (ap : Bool),
      Yaml.scanSegments path parseDoc walk idx ap segs =
        ((segs.filterMap (fun s => match parseDoc s with
            | .ok d => some (walk d)
            | .error _ => none)).flatten,
         (List.enumFrom idx segs).filterMap (fun p => match parseDoc p.2 with
            | .error e => some ⟨path, .yamlParseError, Yaml.docErrMsg p.1 e⟩
            | .ok _ => none),
         ap || segs.any (fun s => (parseDoc s).isOk)) := by
  intro segs
  induction segs with
  | nil => intro idx ap; simp [Yaml.scanSegments]
  | cons seg rest ih =>
    intro idx ap
    unfold Yaml.scanSegments
    cases hp : parseDoc seg with
    | ok doc =>
      rw [ih (idx + 1) true]
      simp [List.enumFrom, hp, Except.isOk, Except.toBool]
    | error docErr =>
      rw [ih (idx + 1) ap]
      simp [List.enumFrom, hp, Except.isOk, Except.toBool]

theorem splitYaml_push_invariant :
    ∀ (lines : List (List Char)) (acc : List (List Char) × List (List Char)),
      (∀ s ∈ acc.1, (trimChars s).isEmpty = false) →
      ∀ s ∈ (lines.foldl
          (fun (acc : List (List Char) × List (List Char)) line =>
            if trimChars line = "---".toList then
              if (trimChars (joinWithCh '\n' acc.2.reverse)).isEmpty then (acc.1, [])
              else (acc.1 ++ [joinWithCh '\n' acc.2.reverse], [])
            else (acc.1, line :: acc.2)) acc).1,
        (trimChars s).isEmpty = false := by
  intro lines
  induction lines with
  | nil => intro acc hacc; exact hacc
  | cons line rest ih =>
    intro acc hacc
    simp only [List.foldl_cons]
    split
    · split
      · exact ih _ hacc
      · rename_i hne
        apply ih
        intro s hs
        simp only [List.mem_append, List.mem_singleton] at hs
        rcases hs with hs | hs
        · exact hacc s hs
        · subst hs
          cases hq : (trimChars (joinWithCh '\n' acc.2.reverse)).isEmpty
          · rfl
          · exact absurd hq hne
    · exact ih _ hacc

/-- Every segment `split_yaml_documents` yields is non-blank after
trimming. -/
theorem split_yaml_documents_nonblank (content : List Char) :
    ∀ s ∈ Yaml.split_yaml_documents content, (trimChars s).isEmpty = false := by
  intro s hs
  simp only [Yaml.split_yaml_documents] at hs
  split at hs
  · exact splitYaml_push_invariant _ _ (by simp) s hs
  · rename_i hne
    simp only [List.mem_append, List.mem_singleton] at hs
    rcases hs with hs | hs
    · exact splitYaml_push_invariant _ _ (by simp) s hs
    · subst hs
      cases hq : (trimChars _).isEmpty
      · rfl
      · exact absurd hq hne

/-- C7, amended: when the whole-stream parse fails, the scanner splits the
source on lines whose trimmed form equals `---` (not only lines exactly
equal to it) and retries each segment that is non-blank after trimming
(dropping whitespace-only segments, not only empty ones) - see
`C7_claim_counterexample` for the divergence from the claim's wording. For
the retried segments: the validation errors are exactly the concatenated
walks of the parsing segments, the scan errors are one `YamlParseError` per
failing segment carrying its 1-based document index - unless no segment
parses, in which case they collapse to the single file-level
`YamlParseError`; validation errors and scan errors are returned as two
separate lists (the two components of the result pair). -/
theorem C7_yaml_multidoc_fallback (content path streamErr : List Char)
    (parseMulti : List Char → Except (List Char) (List Extractor.Json))
    (parseDoc : List Char → Except (List Char) Extractor.Json)
    (walk : Extractor.Json → List Yaml.ValErr)
    (h : parseMulti content = .error streamErr) :
    (∀ s ∈ Yaml.split_yaml_documents content, (trimChars s).isEmpty = false) ∧
    (Yaml.scan_yaml_content content path parseMulti parseDoc walk).1 =
      ((Yaml.split_yaml_documents content).filterMap (fun s =>
        match parseDoc s with
        | .ok d => some (walk d)
        | .error _ => none)).flatten ∧
    ((Yaml.split_yaml_documents content).any (fun s => (parseDoc s).isOk) = true →
      (Yaml.scan_yaml_content content path parseMulti parseDoc walk).2 =
        (Yaml.split_yaml_documents content).enum.filterMap (fun p =>
          match parseDoc p.2 with
          | .error e => some ⟨path, .yamlParseError, Yaml.docErrMsg p.1 e⟩
          | .ok _ => none)) ∧
    ((Yaml.split_yaml_documents content).any (fun s => (parseDoc s).isOk) = false →
      (Yaml.scan_yaml_content content path parseMulti parseDoc walk).2 =
        [⟨path, .yamlParseError, Yaml.fileErrMsg streamErr⟩]) := by
  have hmain : Yaml.scan_yaml_content content path parseMulti parseDoc walk =
      (let segs := Yaml.split_yaml_documents content
       let r := Yaml.scanSegments path parseDoc walk 0 false segs
       if r.2.2 = false then
         (r.1, [⟨path, .yamlParseError, Yaml.fileErrMsg streamErr⟩])
       else (r.1, r.2.1)) := by
    unfold Yaml.scan_yaml_content
    rw [h]
  simp only [scanSegments_spec path parseDoc walk, Bool.false_or] at hmain
  refine ⟨split_yaml_documents_nonblank content, ?_, ?_, ?_⟩
  · rw [hmain]
    split <;> rfl
  · intro hany
    rw [hmain, if_neg (by simp [hany])]
    rfl
  · intro hnone
    rw [hmain, if_pos hnone]

/-- Witness for C7 on a concrete two-document stream whose first document
parses and second fails. -/
theorem C7_yaml_multidoc_fallback_witness :
    (∀ s ∈ Yaml.split_yaml_documents "a\n---\nb:".toList,
      (trimChars s).isEmpty = false) ∧
    (Yaml.scan_yaml_content "a\n---\nb:".toList "m.yaml".toList
        (fun _ => .error "stream bad".toList)
        (fun s => if s = ['a'] then .ok (.str ['a']) else .error "doc bad".toList)
        (fun _ => [(7 : Nat)])).1 =
      ((Yaml.split_yaml_documents "a\n---\nb:".toList).filterMap (fun s =>
        match (if s = ['a'] then (.ok (.str ['a']) : Except (List Char) Extractor.Json)
               else .error "doc bad".toList) with
        | .ok d => some ((fun _ => [(7 : Nat)]) d)
        | .error _ => none)).flatten ∧
    ((Yaml.split_yaml_documents "a\n---\nb:".toList).any (fun s =>
        ((if s = ['a'] then (.ok (.str ['a']) : Except (List Char) Extractor.Json)
          else .error "doc bad".toList)).isOk) = true →
      (Yaml.scan_yaml_content "a\n---\nb:".toList "m.yaml".toList
        (fun _ => .error "stream bad".toList)
        (fun s => if s = ['a'] then .ok (.str ['a']) else .error "doc bad".toList)
        (fun _ => [(7 : Nat)])).2 =
        (Yaml.split_yaml_documents "a\n---\nb:".toList).enum.filterMap (fun p =>
          match (if p.2 = ['a'] then (.ok (.str ['a']) : Except (List Char) Extractor.Json)
                 else .error "doc bad".toList) with
          | .error e => some ⟨"m.yaml".toList, .yamlParseError, Yaml.docErrMsg p.1 e⟩
          | .ok _ => none)) ∧
    ((Yaml.split_yaml_documents "a\n---\nb:".toList).any (fun s =>
        ((if s = ['a'] then (.ok (.str ['a']) : Except (List Char) Extractor.Json)
          else .error "doc bad".toList)).isOk) = false →
      (Yaml.scan_yaml_content "a\n---\nb:".toList "m.yaml".toList
        (fun _ => .error "stream bad".toList)
        (fun s => if s = ['a'] then .ok (.str ['a']) else .error "doc bad".toList)
        (fun _ => [(7 : Nat)])).2 =
        [⟨"m.yaml".toList, .yamlParseError, Yaml.fileErrMsg "stream bad".toList⟩]) :=
  C7_yaml_multidoc_fallback "a\n---\nb:".toList "m.yaml".toList "stream bad".toList
    (fun _ => .error "stream bad".toList)
    (fun s => if s = ['a'] then .ok (.str ['a']) else .error "doc bad".toList)
    (fun _ => [(7 : Nat)]) rfl

/-- C7 counterexample to the claim as stated: the source splits on lines
whose trimmed form equals `---` and drops segments that are blank after
trimming, while the claim reads "lines equal to `---`" and "each non-empty
segment". On `a\n --- \nb:` no line equals `---`, so the claim's split
keeps the whole content as one document, that document fails to parse and
nothing parses (so the claim's reading predicts the file-level collapse),
while the code splits on the padded separator into two documents, the
first parses, and the scan reports a per-document error naming document 2.
On `x:\n---\n   \n---\ny:` the claim's split retries the whitespace-only
middle segment while the code drops it, shifting the 1-based document
indices. -/
theorem C7_claim_counterexample :
    Yaml.splitYamlDocumentsClaimwise "a\n --- \nb:".toList =
      ["a\n --- \nb:".toList] ∧
    Yaml.split_yaml_documents "a\n --- \nb:".toList =
      ["a".toList, "b:".toList] ∧
    (Yaml.splitYamlDocumentsClaimwise "a\n --- \nb:".toList).any (fun s =>
      ((if s = "a".toList then (.ok (.str ['a']) : Except (List Char) Extractor.Json)
        else .error "doc bad".toList)).isOk) = false ∧
    (Yaml.scan_yaml_content "a\n --- \nb:".toList "m.yaml".toList
        (fun _ => .error "stream bad".toList)
        (fun s => if s = "a".toList then .ok (.str ['a']) else .error "doc bad".toList)
        (fun _ => ([] : List Yaml.ValErr))).2 =
      [⟨"m.yaml".toList, .yamlParseError, Yaml.docErrMsg 1 "doc bad".toList⟩] ∧
    Yaml.splitYamlDocumentsClaimwise "x:\n---\n   \n---\ny:".toList =
      ["x:".toList, "   ".toList, "y:".toList] ∧
    Yaml.split_yaml_documents "x:\n---\n   \n---\ny:".toList =
      ["x:".toList, "y:".toList] := by
  decide
